import Mathlib

/-!
Verification development for the smb-lead-automator repository.

The repository contains two near-duplicate lead-processing pipelines:
  * `DataProcessor` in src/library/apolloApi.js (here with a `dp` name part),
  * `LeadLib.DataProcessor` in src/library/dataProcessor.js (here with an `ll` name part),
plus the `ApolloAPI` class (fetch, cache key) and sheet statistics.

JavaScript field values are modelled by `JSValue` (null also stands for
undefined/absent).  JavaScript numbers are modelled as integers; the verified
claims never depend on fractional values.  Operations that can raise a
JavaScript TypeError (calling a string method on a non-string, or accessing a
property of null) return `Except JsErr`.  `Utilities.getUuid()` and
`new Date()` are modelled by environment-supplied strings (`Env`); none of the
claims depend on the uniqueness of generated ids or on per-record timestamps.
String case mapping and the whitespace class are modelled over ASCII, matching
every character class appearing in the source regular expressions.
-/

namespace LeadAuto

/-- Error raised by a modelled JavaScript primitive (TypeError and the like). -/
abbrev JsErr := String

instance {ε α : Type} [DecidableEq ε] [DecidableEq α] : DecidableEq (Except ε α) := fun a b =>
  match a, b with
  | .ok x, .ok y => if h : x = y then .isTrue (by simp [h]) else .isFalse (by simp [h])
  | .error x, .error y => if h : x = y then .isTrue (by simp [h]) else .isFalse (by simp [h])
  | .ok _, .error _ => .isFalse (by simp)
  | .error _, .ok _ => .isFalse (by simp)

/-- Model of a loosely-typed JavaScript value: `null` also covers `undefined`
and absent fields; numbers are modelled as integers. -/
inductive JSValue where
  | null : JSValue
  | str  : String → JSValue
  | num  : Int → JSValue
  | bool : Bool → JSValue
deriving DecidableEq, Repr, Inhabited

namespace JSValue

/-- JavaScript truthiness of a value. -/
def truthy : JSValue → Bool
  | .null => false
  | .str s => s ≠ ""
  | .num n => n ≠ 0
  | .bool b => b

/-- Is the value a string (JavaScript `typeof v === "string"`). -/
def isStr : JSValue → Bool
  | .str _ => true
  | _ => false

/-- JavaScript `String(v)` coercion. -/
def coerceStr : JSValue → String
  | .null => "null"
  | .str s => s
  | .num n => toString n
  | .bool b => if b then "true" else "false"

/-- JavaScript `Number(v)` coercion (for the `+` operator on non-strings). -/
def toNumber : JSValue → Int
  | .null => 0
  | .str _ => 0
  | .num n => n
  | .bool b => if b then 1 else 0

/-- JavaScript `a || b`. -/
def jsOr (a b : JSValue) : JSValue := if a.truthy then a else b

/-- JavaScript binary `+`: string concatenation when either operand is a
string, numeric addition otherwise. -/
def jsAdd (a b : JSValue) : JSValue :=
  if a.isStr ∨ b.isStr then .str (a.coerceStr ++ b.coerceStr)
  else .num (a.toNumber + b.toNumber)

/-- Calling a string method on a value: yields the underlying string, or a
TypeError for a non-string receiver. -/
def asStrMethod : JSValue → Except JsErr String
  | .str s => .ok s
  | _ => .error "TypeError"

end JSValue

/-! ## Character and string primitives (ASCII model of the JS operations) -/

/-- ASCII whitespace, the subset of the JavaScript `\s` class relevant here. -/
def isJsWs (c : Char) : Bool := c == ' ' || c == '\t' || c == '\n' || c == '\r'

/-- ASCII lower-casing of one character (model of the case mapping used by
`toLowerCase` on the data appearing in this program). -/
def jsCharToLower (c : Char) : Char :=
  if 65 ≤ c.toNat ∧ c.toNat ≤ 90 then Char.ofNat (c.toNat + 32) else c

/-- ASCII upper-casing of one character. -/
def jsCharToUpper (c : Char) : Char :=
  if 97 ≤ c.toNat ∧ c.toNat ≤ 122 then Char.ofNat (c.toNat - 32) else c

/-- List-level lower-casing. -/
def lowerL (l : List Char) : List Char := l.map jsCharToLower

/-- String-level model of `s.toLowerCase()`. -/
def jsStrToLower (s : String) : String := ⟨lowerL s.data⟩

/-- String-level model of `s.toUpperCase()`. -/
def jsStrToUpper (s : String) : String := ⟨s.data.map jsCharToUpper⟩

/-- List-level trim: drop JS whitespace from both ends. -/
def trimL (l : List Char) : List Char :=
  ((l.dropWhile isJsWs).reverse.dropWhile isJsWs).reverse

/-- String-level model of `s.trim()`. -/
def jsTrim (s : String) : String := ⟨trimL s.data⟩

/-- Collapse every maximal run of JS whitespace to a single space: model of
`s.replace(/\s+/g, " ")`.  The boolean argument records whether the previous
character belonged to a whitespace run. -/
def collapseWsAux : List Char → Bool → List Char
  | [], _ => []
  | c :: rest, prevWs =>
    if isJsWs c then
      if prevWs then collapseWsAux rest true else ' ' :: collapseWsAux rest true
    else c :: collapseWsAux rest false

/-- String-level whitespace collapsing. -/
def collapseWs (s : String) : String := ⟨collapseWsAux s.data false⟩

/-- Split a character list at every occurrence of `sep` (model of the JS
`String.prototype.split` with a single-character separator). -/
def splitCharAux (sep : Char) : List Char → List Char → List (List Char)
  | [], acc => [acc.reverse]
  | c :: rest, acc =>
    if c = sep then acc.reverse :: splitCharAux sep rest []
    else splitCharAux sep rest (c :: acc)

/-- String-level split on one character. -/
def jsSplit (sep : Char) (s : String) : List String :=
  (splitCharAux sep s.data []).map fun l => ⟨l⟩

/-- Model of JavaScript `Array.prototype.join(sep)` over strings. -/
def jsJoin (sep : String) : List String → String
  | [] => ""
  | [x] => x
  | x :: rest => x ++ sep ++ jsJoin sep rest

/-- Keep only the characters satisfying `p`: model of
`s.replace(/[^...]/g, "")` for a character class `p`. -/
def keepChars (p : Char → Bool) (s : String) : String := ⟨s.data.filter p⟩

/-- Capitalize one word: `w.charAt(0).toUpperCase() + w.slice(1).toLowerCase()`. -/
def capWordL : List Char → List Char
  | [] => []
  | c :: rest => jsCharToUpper c :: rest.map jsCharToLower

/-- Model of `s.trim().split(" ").map(capitalize).join(" ")` used by both
`cleanName` variants. -/
def capWords (s : String) : String :=
  jsJoin " " ((jsSplit ' ' (jsTrim s)).map fun w => ⟨capWordL w.data⟩)

/-- Model of JavaScript `parseInt` on a string: optional leading whitespace,
optional sign, then a non-empty digit prefix; `none` models NaN. -/
def parseIntL (l : List Char) : Option Int :=
  let l := l.dropWhile isJsWs
  let signApply : Bool → Nat → Int := fun neg n => if neg then -(n : Int) else (n : Int)
  let core : List Char → Bool → Option Int := fun l neg =>
    let digits := l.takeWhile (·.isDigit)
    if digits = [] then none
    else some (signApply neg (digits.foldl (fun acc c => acc * 10 + (c.toNat - 48)) 0))
  match l with
  | '-' :: rest => core rest true
  | '+' :: rest => core rest false
  | _ => core l false

/-- Model of JavaScript `parseInt(v)` on an arbitrary value (`none` is NaN).
Numbers are already integers in this model. -/
def jsParseInt : JSValue → Option Int
  | .num n => some n
  | .str s => parseIntL s.data
  | _ => none

/-- Model of the e-mail regular expression used by both pipeline variants,
`^[^\s@]+@[^\s@]+\.[^\s@]+$`: exactly one `@`; a non-empty whitespace-free
local part; a non-empty whitespace-free domain containing a dot that is
neither its first nor its last character. -/
def emailRegexTest (s : String) : Bool :=
  match splitCharAux '@' s.data [] with
  | [l, r] =>
    l ≠ [] && l.all (fun c => !isJsWs c) &&
    r ≠ [] && r.all (fun c => !isJsWs c) &&
    ((r.drop 1).dropLast.contains '.')
  | _ => false

/-- Model of the name regular expression `^[a-zA-Z\s\-\.]+$`. -/
def nameRegexTest (s : String) : Bool :=
  s.data ≠ [] && s.data.all fun c =>
    c.isAlpha || isJsWs c || c == '-' || c == '.'

/-- Environment supplying the impure inputs of the pipelines: the string
produced by `Utilities.getUuid()`, the ISO timestamp of `new Date()`, and the
current calendar year.  None of the verified claims depend on distinct uuids
or timestamps, so a single value of each suffices. -/
structure Env where
  uuid : String
  nowIso : String
  currentYear : Int
deriving DecidableEq, Repr

end LeadAuto

namespace LeadAuto

/-! ## LeadLib.DataProcessor (src/library/dataProcessor.js) -/

/-- Raw lead record consumed by `LeadLib.DataProcessor.cleanLeads`; every
field is an arbitrary JavaScript value. -/
structure RawLeadLL where
  id : JSValue
  name : JSValue
  title : JSValue
  company : JSValue
  industry : JSValue
  employees : JSValue
  foundedYear : JSValue
  email : JSValue
  phone : JSValue
  location : JSValue
  linkedin : JSValue
  website : JSValue
  description : JSValue
deriving DecidableEq, Repr

/-- Cleaned lead record produced by `LeadLib.DataProcessor.cleanLeads`. -/
structure CleanLeadLL where
  id : JSValue
  name : String
  title : String
  company : String
  industry : String
  employees : Nat
  foundedYear : JSValue
  email : String
  phone : String
  location : String
  linkedin : String
  website : String
  description : String
  lastUpdated : String
  contacted : Bool
  source : String
deriving DecidableEq, Repr

/-- The JS `\w` class: letters, digits, underscore. -/
def isWordChar (c : Char) : Bool := c.isAlpha || c.isDigit || c == '_'

/-- Model of `pre.isPrefixOf`-style `String.prototype.startsWith`. -/
def jsStartsWith (pre s : String) : Bool := pre.data.isPrefixOf s.data

/-- LeadLib `isValidEmail`: the e-mail regex applied to the coerced value. -/
def llIsValidEmail (v : JSValue) : Bool := emailRegexTest v.coerceStr

/-- LeadLib `isValidName`: the name regex on the coerced value, and
`name.length > 1` (which is false for every non-string receiver). -/
def llIsValidName (v : JSValue) : Bool :=
  nameRegexTest v.coerceStr &&
    (match v with
     | .str s => decide (s.length > 1)
     | _ => false)

/-- LeadLib `cleanName`: falsy guard, then trim/split/capitalize/join.
Throws on a truthy non-string. -/
def llCleanName (v : JSValue) : Except JsErr String :=
  if ¬ v.truthy then .ok "" else do
    let s ← v.asStrMethod
    .ok (capWords s)

/-- Title canonicalization table of LeadLib `cleanTitle`. -/
def llTitleMappings : List (String × String) :=
  [("ceo", "CEO"), ("chief executive officer", "CEO"), ("owner", "Owner"),
   ("founder", "Founder"), ("president", "President"), ("coo", "COO"),
   ("chief operating officer", "COO"), ("cto", "CTO"),
   ("chief technology officer", "CTO"), ("cfo", "CFO"),
   ("chief financial officer", "CFO")]

/-- LeadLib `cleanTitle`: falsy guard; look up `title.toLowerCase().trim()`
in the table, defaulting to the original title. -/
def llCleanTitle (v : JSValue) : Except JsErr String :=
  if ¬ v.truthy then .ok "" else do
    let s ← v.asStrMethod
    match llTitleMappings.lookup (jsTrim (jsStrToLower s)) with
    | some t => .ok t
    | none => .ok s

/-- LeadLib `cleanCompany`: trim, collapse whitespace, strip characters
outside `[\w\s\-\.&]`. -/
def llCleanCompany (v : JSValue) : Except JsErr String :=
  if ¬ v.truthy then .ok "" else do
    let s ← v.asStrMethod
    .ok (keepChars (fun c => isWordChar c || isJsWs c || c == '-' || c == '.' || c == '&')
          (collapseWs (jsTrim s)))

/-- Industry canonicalization table of LeadLib `cleanIndustry`. -/
def llIndustryMappings : List (String × String) :=
  [("technology", "Technology"), ("software", "Software"),
   ("healthcare", "Healthcare"), ("finance", "Finance"), ("retail", "Retail"),
   ("manufacturing", "Manufacturing"), ("education", "Education"),
   ("consulting", "Consulting"), ("real estate", "Real Estate"),
   ("automotive", "Automotive")]

/-- LeadLib `cleanIndustry`: like `cleanTitle` with the industry table. -/
def llCleanIndustry (v : JSValue) : Except JsErr String :=
  if ¬ v.truthy then .ok "" else do
    let s ← v.asStrMethod
    match llIndustryMappings.lookup (jsTrim (jsStrToLower s)) with
    | some t => .ok t
    | none => .ok s

/-- LeadLib `cleanEmployees`: falsy guard, `parseInt`, NaN to 0, clamp at 0. -/
def llCleanEmployees (v : JSValue) : Nat :=
  if ¬ v.truthy then 0 else
    match jsParseInt v with
    | none => 0
    | some n => n.toNat

/-- LeadLib `cleanFoundedYear`: falsy guard; `parseInt`; outside
`[1800, currentYear]` yields the empty string, otherwise the number. -/
def llCleanFoundedYear (cy : Int) (v : JSValue) : JSValue :=
  if ¬ v.truthy then .str "" else
    match jsParseInt v with
    | none => .str ""
    | some n => if n < 1800 ∨ n > cy then .str "" else .num n

/-- LeadLib `cleanPhone`: keep only digits, `+` and `-`. -/
def llCleanPhone (v : JSValue) : Except JsErr String :=
  if ¬ v.truthy then .ok "" else do
    let s ← v.asStrMethod
    .ok (keepChars (fun c => c.isDigit || c == '+' || c == '-') s)

/-- LeadLib `cleanLocation`: trim, collapse whitespace, strip characters
outside `[\w\s\-\,]`. -/
def llCleanLocation (v : JSValue) : Except JsErr String :=
  if ¬ v.truthy then .ok "" else do
    let s ← v.asStrMethod
    .ok (keepChars (fun c => isWordChar c || isJsWs c || c == '-' || c == ',')
          (collapseWs (jsTrim s)))

/-- LeadLib `cleanLinkedIn`: prepend `https://` to the untrimmed value when it
does not start with `http`; otherwise return the trimmed value. -/
def llCleanLinkedIn (v : JSValue) : Except JsErr String :=
  if ¬ v.truthy then .ok "" else do
    let s ← v.asStrMethod
    if ¬ jsStartsWith "http" s then .ok ("https://" ++ s) else .ok (jsTrim s)

/-- LeadLib `cleanWebsite`: same shape as `cleanLinkedIn`. -/
def llCleanWebsite (v : JSValue) : Except JsErr String :=
  if ¬ v.truthy then .ok "" else do
    let s ← v.asStrMethod
    if ¬ jsStartsWith "http" s then .ok ("https://" ++ s) else .ok (jsTrim s)

/-- LeadLib `cleanDescription`: trim, collapse whitespace, truncate to 500
characters. -/
def llCleanDescription (v : JSValue) : Except JsErr String :=
  if ¬ v.truthy then .ok "" else do
    let s ← v.asStrMethod
    .ok ⟨(collapseWs (jsTrim s)).data.take 500⟩

/-- Construction of the cleaned record inside `cleanLeads`, in the object
literal's evaluation order. -/
def llBuild (env : Env) (lead : RawLeadLL) : Except JsErr CleanLeadLL := do
  let idv := lead.id.jsOr (.str ("lead_" ++ env.uuid))
  let name ← llCleanName lead.name
  let title ← llCleanTitle lead.title
  let company ← llCleanCompany lead.company
  let industry ← llCleanIndustry lead.industry
  let employees := llCleanEmployees lead.employees
  let foundedYear := llCleanFoundedYear env.currentYear lead.foundedYear
  let emailS ← lead.email.asStrMethod
  let phone ← llCleanPhone lead.phone
  let location ← llCleanLocation lead.location
  let linkedin ← llCleanLinkedIn lead.linkedin
  let website ← llCleanWebsite lead.website
  let description ← llCleanDescription lead.description
  .ok ⟨idv, name, title, company, industry, employees, foundedYear,
       jsTrim (jsStrToLower emailS), phone, location, linkedin, website,
       description, env.nowIso, false, "Apollo.io"⟩

/-- The `forEach` body of `LeadLib.cleanLeads` on one record: validation
guards, duplicate checks against the seen sets, then record construction.  On
success it returns the record together with the two values added to
`seenEmails` and `seenNames`. -/
def llStepSome (env : Env) (lead : RawLeadLL) (seenE seenN : List String) :
    Except JsErr (Option (CleanLeadLL × String × String)) :=
    if ¬ (lead.email.truthy ∧ llIsValidEmail lead.email) then .ok none
    else if ¬ (lead.name.truthy ∧ llIsValidName lead.name) then .ok none
    else do
      let es ← lead.email.asStrMethod
      let eLow := jsStrToLower es
      if seenE.contains eLow then .ok none
      else do
        let ns ← lead.name.asStrMethod
        let nLow := jsStrToLower ns
        if seenN.contains nLow then .ok none
        else do
          let c ← llBuild env lead
          .ok (some (c, eLow, nLow))

/-- One iteration of the `forEach` body on a possibly null entry: accessing a
field of a null record throws. -/
def llStep (env : Env) (lead? : Option RawLeadLL) (seenE seenN : List String) :
    Except JsErr (Option (CleanLeadLL × String × String)) :=
  match lead? with
  | none => .error "TypeError"
  | some lead => llStepSome env lead seenE seenN

/-- The `forEach` loop of `LeadLib.cleanLeads`, keeping each accepted record
together with the two values inserted into `seenEmails` and `seenNames`: the
try/catch skips a record whose step throws; the seen sets grow only when a
record is accepted. -/
def llGoT (env : Env) : List (Option RawLeadLL) → List String → List String →
    List (CleanLeadLL × String × String)
  | [], _, _ => []
  | x :: rest, sE, sN =>
    match llStep env x sE sN with
    | .ok (some t) => t :: llGoT env rest (t.2.1 :: sE) (t.2.2 :: sN)
    | .ok none => llGoT env rest sE sN
    | .error _ => llGoT env rest sE sN

/-- `LeadLib.DataProcessor.cleanLeads` on an array input (a non-array input
returns `[]` in the source and is not modelled further). -/
def llCleanLeads (env : Env) (rawLeads : List (Option RawLeadLL)) : List CleanLeadLL :=
  (llGoT env rawLeads [] []).map (fun t => t.1)

/-! ### LeadLib statistics and CSV export -/

/-- Statistics object of `LeadLib.getLeadStatistics`. -/
structure LLStats where
  total : Nat
  contacted : Nat
  notContacted : Nat
  byIndustry : List (String × Nat)
  byTitle : List (String × Nat)
  byCompanySize : List (String × Nat)
deriving DecidableEq, Repr

/-- Model of `m[k] = (m[k] || 0) + 1` on a JS object used as a counter map. -/
def bumpCount (m : List (String × Nat)) (k : String) : List (String × Nat) :=
  if m.any (fun p => p.1 == k) then
    m.map (fun p => if p.1 == k then (p.1, p.2 + 1) else p)
  else m ++ [(k, 1)]

/-- JS `s || "Unknown"` on a string field. -/
def orUnknown (s : String) : String := if s = "" then "Unknown" else s

/-- The company-size bucketing used inside `LeadLib.getLeadStatistics` (and,
with the same thresholds, inside `SheetManager.getStats`). -/
def llSizeCategory (employees : Nat) : String :=
  if employees = 0 then "Unknown"
  else if employees ≤ 10 then "1-10"
  else if employees ≤ 50 then "11-50"
  else if employees ≤ 200 then "51-200"
  else if employees ≤ 500 then "201-500"
  else "500+"

/-- The `forEach` body of `LeadLib.getLeadStatistics`. -/
def llStatsStep (s : LLStats) (lead : CleanLeadLL) : LLStats :=
  ⟨s.total,
   (if lead.contacted then s.contacted + 1 else s.contacted),
   (if lead.contacted then s.notContacted else s.notContacted + 1),
   bumpCount s.byIndustry (orUnknown lead.industry),
   bumpCount s.byTitle (orUnknown lead.title),
   bumpCount s.byCompanySize (llSizeCategory lead.employees)⟩

/-- `LeadLib.DataProcessor.getLeadStatistics`. -/
def llGetLeadStatistics (leads : List CleanLeadLL) : LLStats :=
  if leads = [] then ⟨0, 0, 0, [], [], []⟩
  else leads.foldl llStatsStep ⟨leads.length, 0, 0, [], [], []⟩

/-- Model of `s.replace(/"/g, "\"\"")`. -/
def escQuotes (s : String) : String :=
  ⟨s.data.foldr (fun c acc => if c = '"' then '"' :: '"' :: acc else c :: acc) []⟩

/-- A double-quoted CSV cell with internal quotes doubled. -/
def quoteCell (s : String) : String := "\"" ++ escQuotes s ++ "\""

/-- Header list of `LeadLib.exportToCSV`. -/
def llHeaders : List String :=
  ["ID", "Name", "Title", "Company", "Industry", "Employees", "Founded Year",
   "Email", "Phone", "Location", "LinkedIn", "Website", "Description",
   "Contacted", "Last Updated", "Source"]

/-- The cell strings of one record's CSV row in `LeadLib.exportToCSV`
(`Array.prototype.join` coerces the non-string cells). -/
def llCells (lead : CleanLeadLL) : List String :=
  [(lead.id.jsOr (.str "")).coerceStr,
   quoteCell lead.name, quoteCell lead.title, quoteCell lead.company,
   quoteCell lead.industry,
   toString lead.employees,
   (lead.foundedYear.jsOr (.str "")).coerceStr,
   lead.email, lead.phone, quoteCell lead.location,
   lead.linkedin, lead.website, quoteCell lead.description,
   (if lead.contacted then "Yes" else "No"),
   lead.lastUpdated, lead.source]

/-- One CSV row of `LeadLib.exportToCSV`. -/
def llRow (lead : CleanLeadLL) : String := jsJoin "," (llCells lead)

/-- Concatenation of a list of strings. -/
def concatStrs : List String → String
  | [] => ""
  | s :: rest => s ++ concatStrs rest

/-- `LeadLib.DataProcessor.exportToCSV`: the sentinel for an empty batch,
otherwise the header line and one line per record, each newline-terminated. -/
def llExportToCSV (leads : List CleanLeadLL) : String :=
  if leads = [] then "No leads to export"
  else (jsJoin "," llHeaders ++ "\n") ++ concatStrs (leads.map fun l => llRow l ++ "\n")

end LeadAuto

namespace LeadAuto

/-! ## DataProcessor (src/library/apolloApi.js, second class) -/

/-- Raw lead record consumed by `DataProcessor.cleanLeads` in apolloApi.js. -/
structure RawLeadDP where
  id : JSValue
  name : JSValue
  title : JSValue
  company : JSValue
  sector : JSValue
  employees : JSValue
  capital : JSValue
  yearFounded : JSValue
  email : JSValue
  linkedinUrl : JSValue
  phone : JSValue
  location : JSValue
  website : JSValue
deriving DecidableEq, Repr

/-- Cleaned lead record produced by `DataProcessor._cleanIndividualLead`. -/
structure CleanLeadDP where
  id : JSValue
  name : String
  title : String
  company : String
  sector : String
  employees : Int
  capital : Int
  yearFounded : JSValue
  email : String
  linkedinUrl : String
  phone : String
  location : String
  website : String
  lastUpdated : String
  contacted : Bool
deriving DecidableEq, Repr

/-- `DataProcessor._cleanName`: non-string guard, then capitalize words. -/
def dpCleanName (v : JSValue) : Except JsErr String :=
  if ¬ (v.truthy ∧ v.isStr) then .ok "" else do
    let s ← v.asStrMethod
    .ok (capWords s)

/-- Title table of `DataProcessor._cleanTitle` (no COO/CTO/CFO entries). -/
def dpTitleMap : List (String × String) :=
  [("ceo", "CEO"), ("chief executive officer", "CEO"), ("owner", "Owner"),
   ("founder", "Founder"), ("president", "President"),
   ("co-founder", "Co-Founder"), ("cofounder", "Co-Founder")]

/-- `DataProcessor._cleanTitle`: non-string guard; trim first, look up the
lower-cased trimmed title, default to the trimmed title. -/
def dpCleanTitle (v : JSValue) : Except JsErr String :=
  if ¬ (v.truthy ∧ v.isStr) then .ok "" else do
    let s ← v.asStrMethod
    let cleanTitle := jsTrim s
    match dpTitleMap.lookup (jsStrToLower cleanTitle) with
    | some t => .ok t
    | none => .ok cleanTitle

/-- `DataProcessor._cleanCompanyName`: trim and collapse whitespace. -/
def dpCleanCompanyName (v : JSValue) : Except JsErr String :=
  if ¬ (v.truthy ∧ v.isStr) then .ok "" else do
    let s ← v.asStrMethod
    .ok (collapseWs (jsTrim s))

/-- `DataProcessor._cleanSector`: defaults to "Unknown"; otherwise trim. -/
def dpCleanSector (v : JSValue) : Except JsErr String :=
  if ¬ (v.truthy ∧ v.isStr) then .ok "Unknown" else do
    let s ← v.asStrMethod
    .ok (jsTrim s)

/-- `DataProcessor._cleanEmail`: trim and lower-case, keep only if it passes
the e-mail regex. -/
def dpCleanEmail (v : JSValue) : Except JsErr String :=
  if ¬ (v.truthy ∧ v.isStr) then .ok "" else do
    let s ← v.asStrMethod
    let cleanEmail := jsStrToLower (jsTrim s)
    .ok (if emailRegexTest cleanEmail then cleanEmail else "")

/-- `DataProcessor._cleanPhone`: strip every non-digit. -/
def dpCleanPhone (v : JSValue) : Except JsErr String :=
  if ¬ (v.truthy ∧ v.isStr) then .ok "" else do
    let s ← v.asStrMethod
    .ok (keepChars (·.isDigit) s)

/-- `DataProcessor._cleanLocation`: trim. -/
def dpCleanLocation (v : JSValue) : Except JsErr String :=
  if ¬ (v.truthy ∧ v.isStr) then .ok "" else do
    let s ← v.asStrMethod
    .ok (jsTrim s)

/-- `DataProcessor._cleanUrl`: trim; prepend `https://` to the trimmed value
when it does not start with `http`. -/
def dpCleanUrl (v : JSValue) : Except JsErr String :=
  if ¬ (v.truthy ∧ v.isStr) then .ok "" else do
    let s ← v.asStrMethod
    let cleanUrl := jsTrim s
    .ok (if jsStartsWith "http" cleanUrl then cleanUrl else "https://" ++ cleanUrl)

/-- `DataProcessor._cleanNumber`: a number passes through; a string is
stripped to `[\d.-]` and parsed (NaN gives 0); anything else gives 0.
Fractional parts are truncated in this integer model. -/
def dpCleanNumber : JSValue → Int
  | .num n => n
  | .str s =>
    match parseIntL (s.data.filter (fun c => c.isDigit || c == '.' || c == '-')) with
    | none => 0
    | some n => n
  | _ => 0

/-- `DataProcessor._cleanYear`: `_cleanNumber`, then null outside
`[1800, currentYear]`. -/
def dpCleanYear (cy : Int) (v : JSValue) : JSValue :=
  let cleanYear := dpCleanNumber v
  if cleanYear < 1800 ∨ cleanYear > cy then .null else .num cleanYear

/-- `DataProcessor._cleanIndividualLead` on a possibly null entry, fields in
the object literal's evaluation order. -/
def dpCleanIndividual (env : Env) (lead? : Option RawLeadDP) : Except JsErr CleanLeadDP :=
  match lead? with
  | none => .error "TypeError"
  | some lead => do
    let idv := lead.id.jsOr (.str env.uuid)
    let name ← dpCleanName lead.name
    let title ← dpCleanTitle lead.title
    let company ← dpCleanCompanyName lead.company
    let sector ← dpCleanSector lead.sector
    let employees := dpCleanNumber lead.employees
    let capital := dpCleanNumber lead.capital
    let yearFounded := dpCleanYear env.currentYear lead.yearFounded
    let email ← dpCleanEmail lead.email
    let linkedinUrl ← dpCleanUrl lead.linkedinUrl
    let phone ← dpCleanPhone lead.phone
    let location ← dpCleanLocation lead.location
    let website ← dpCleanUrl lead.website
    .ok ⟨idv, name, title, company, sector, employees, capital, yearFounded,
         email, linkedinUrl, phone, location, website, env.nowIso, false⟩

/-- The `.map(lead => this._cleanIndividualLead(lead))` stage: with no
per-record handler, the first thrown error aborts the whole batch. -/
def dpCleanAll (env : Env) : List (Option RawLeadDP) → Except JsErr (List CleanLeadDP)
  | [] => .ok []
  | x :: rest => do
    let c ← dpCleanIndividual env x
    let cs ← dpCleanAll env rest
    .ok (c :: cs)

/-- Accepted titles of `DataProcessor._validateLead`. -/
def dpValidTitles : List String := ["CEO", "Owner", "Founder", "President", "Co-Founder"]

/-- `DataProcessor._validateLead`. -/
def dpValidateLead (lead : CleanLeadDP) : Bool :=
  lead.name ≠ "" && lead.company ≠ "" && lead.email ≠ "" &&
    dpValidTitles.contains lead.title

/-- JS `Array.prototype.filter` with the element index available to the
predicate. -/
def filterIdxAux (p : α → Nat → Bool) : List α → Nat → List α
  | [], _ => []
  | a :: rest, i =>
    if p a i then a :: filterIdxAux p rest (i + 1) else filterIdxAux p rest (i + 1)

/-- The `_deduplicateLead` filter: keep a record exactly when the first index
in the validated array holding its e-mail is its own index. -/
def dpDedup (validated : List CleanLeadDP) : List CleanLeadDP :=
  filterIdxAux
    (fun lead i => validated.findIdx (fun l => l.email == lead.email) == i)
    validated 0

/-- `DataProcessor.cleanLeads`: map each record through
`_cleanIndividualLead`, filter by `_validateLead`, filter by
`_deduplicateLead`. -/
def dpCleanLeads (env : Env) (rawLeads : List (Option RawLeadDP)) :
    Except JsErr (List CleanLeadDP) := do
  let cleaned ← dpCleanAll env rawLeads
  .ok (dpDedup (cleaned.filter dpValidateLead))

/-! ### DataProcessor statistics and CSV export -/

/-- Statistics object of `DataProcessor.getLeadStatistics` (apolloApi.js). -/
structure DPStats where
  total : Nat
  bySector : List (String × Nat)
  byTitle : List (String × Nat)
  contacted : Nat
  notContacted : Nat
deriving DecidableEq, Repr

/-- The `forEach` body of `DataProcessor.getLeadStatistics`. -/
def dpStatsStep (s : DPStats) (lead : CleanLeadDP) : DPStats :=
  ⟨s.total,
   bumpCount s.bySector (orUnknown lead.sector),
   bumpCount s.byTitle (orUnknown lead.title),
   (if lead.contacted then s.contacted + 1 else s.contacted),
   (if lead.contacted then s.notContacted else s.notContacted + 1)⟩

/-- `DataProcessor.getLeadStatistics`. -/
def dpGetLeadStatistics (leads : List CleanLeadDP) : DPStats :=
  if leads = [] then ⟨0, [], [], 0, 0⟩
  else leads.foldl dpStatsStep ⟨leads.length, [], [], 0, 0⟩

/-- A CSV cell wrapped in plain double quotes (apolloApi.js does not escape
internal quotes). -/
def quoteRaw (s : String) : String := "\"" ++ s ++ "\""

/-- Header list of `DataProcessor.exportToCSV` (apolloApi.js). -/
def dpHeaders : List String :=
  ["Timestamp", "Lead Name", "Title", "Company Name", "Sector",
   "Employees", "Capital", "Year Founded", "Email", "Phone",
   "Location", "Website", "LinkedIn", "Contacted"]

/-- The cell strings of one record's CSV row in `DataProcessor.exportToCSV`. -/
def dpCells (lead : CleanLeadDP) : List String :=
  [lead.lastUpdated, quoteRaw lead.name, quoteRaw lead.title,
   quoteRaw lead.company, quoteRaw lead.sector,
   toString lead.employees, toString lead.capital,
   (lead.yearFounded.jsOr (.str "")).coerceStr,
   lead.email, lead.phone, quoteRaw lead.location,
   lead.website, lead.linkedinUrl,
   (if lead.contacted then "Yes" else "No")]

/-- One CSV row of `DataProcessor.exportToCSV`. -/
def dpRow (lead : CleanLeadDP) : String := jsJoin "," (dpCells lead)

/-- `DataProcessor.exportToCSV`: empty string for an empty batch, otherwise
header and rows joined by newlines (no trailing newline). -/
def dpExportToCSV (leads : List CleanLeadDP) : String :=
  if leads = [] then ""
  else jsJoin "\n" (jsJoin "," dpHeaders :: leads.map dpRow)

end LeadAuto

namespace LeadAuto

/-! ## ApolloAPI (src/library/apolloApi.js, first class) -/

/-- JSON value for the filters object (strings, integers, arrays suffice for
the filter payloads of this program). -/
inductive JsonVal where
  | s (v : String)
  | n (v : Int)
  | arr (vs : List JsonVal)

/-- The filters object: key/value pairs in insertion order, as
`JSON.stringify` sees them. -/
abbrev Filters := List (String × JsonVal)

/-- JSON string escaping (quote and backslash; the data of this program
contains no control characters). -/
def escJson (s : String) : String :=
  ⟨s.data.foldr
    (fun c acc =>
      if c = '"' then '\\' :: '"' :: acc
      else if c = '\\' then '\\' :: '\\' :: acc
      else c :: acc) []⟩

mutual

/-- `JSON.stringify` of one value. -/
def jsonStrVal : JsonVal → String
  | .s v => "\"" ++ escJson v ++ "\""
  | .n v => toString v
  | .arr vs => "[" ++ jsonStrList vs ++ "]"

/-- Comma-joined serialization of an array's elements. -/
def jsonStrList : List JsonVal → String
  | [] => ""
  | [x] => jsonStrVal x
  | x :: rest => jsonStrVal x ++ "," ++ jsonStrList rest

end

/-- `JSON.stringify` of the filters object: keys in insertion order. -/
def jsonStringify (fs : Filters) : String :=
  "\x7b" ++
    jsJoin "," (fs.map fun p => "\"" ++ escJson p.1 ++ "\":" ++ jsonStrVal p.2) ++
  "\x7d"

/-- UTF-8 encoding of one character. -/
def utf8Char (c : Char) : List Nat :=
  let n := c.toNat
  if n < 128 then [n]
  else if n < 2048 then [192 + n / 64, 128 + n % 64]
  else if n < 65536 then [224 + n / 4096, 128 + (n / 64) % 64, 128 + n % 64]
  else [240 + n / 262144, 128 + (n / 4096) % 64, 128 + (n / 64) % 64, 128 + n % 64]

/-- UTF-8 encoding of a string as a byte list. -/
def utf8Bytes (s : String) : List Nat :=
  s.data.foldr (fun c acc => utf8Char c ++ acc) []

/-- The base64 alphabet. -/
def b64Alphabet : List Char :=
  "ABCDEFGHIJKLMNOPQRSTUVWXYZabcdefghijklmnopqrstuvwxyz0123456789+/".data

/-- Character of one sextet. -/
def b64Char (n : Nat) : Char := b64Alphabet.getD n 'A'

/-- Base64 encoding of a byte list, with `=` padding. -/
def b64EncodeL : List Nat → List Char
  | [] => []
  | [a] => [b64Char (a / 4), b64Char ((a % 4) * 16), '=', '=']
  | [a, b] => [b64Char (a / 4), b64Char ((a % 4) * 16 + b / 16), b64Char ((b % 16) * 4), '=']
  | a :: b :: c :: rest =>
    b64Char (a / 4) :: b64Char ((a % 4) * 16 + b / 16) ::
    b64Char ((b % 16) * 4 + c / 64) :: b64Char (c % 64) :: b64EncodeL rest

/-- Model of `Utilities.base64Encode` on a string (UTF-8 bytes, base64). -/
def base64Encode (s : String) : String := ⟨b64EncodeL (utf8Bytes s)⟩

/-- `ApolloAPI._generateCacheKey`:
`"leads_" + Utilities.base64Encode(JSON.stringify(filters))`. -/
def generateCacheKey (filters : Filters) : String :=
  "leads_" ++ base64Encode (jsonStringify filters)

/-- Index of a character in the base64 alphabet. -/
def b64Index (c : Char) : Option Nat :=
  let i := b64Alphabet.findIdx (· == c)
  if i < 64 then some i else none

/-- Base64 decoding, inverse of `b64EncodeL` (used to establish that the
encoding is injective). -/
def b64DecodeL : List Char → Option (List Nat)
  | [] => some []
  | c1 :: c2 :: c3 :: c4 :: rest =>
    if c3 = '=' ∧ c4 = '=' ∧ rest = [] then do
      let n1 ← b64Index c1
      let n2 ← b64Index c2
      some [n1 * 4 + n2 / 16]
    else if c4 = '=' ∧ rest = [] then do
      let n1 ← b64Index c1
      let n2 ← b64Index c2
      let n3 ← b64Index c3
      some [n1 * 4 + n2 / 16, (n2 % 16) * 16 + n3 / 4]
    else do
      let n1 ← b64Index c1
      let n2 ← b64Index c2
      let n3 ← b64Index c3
      let n4 ← b64Index c4
      let bs ← b64DecodeL rest
      some ([n1 * 4 + n2 / 16, (n2 % 16) * 16 + n3 / 4, (n3 % 4) * 64 + n4] ++ bs)
  | _ => none

/-! ### The HTTP fetch path of `ApolloAPI.fetchLeads` -/

/-- Organization sub-object of an Apollo person record. -/
structure OrgDP where
  name : JSValue
  industry : JSValue
  estimated_num_employees : JSValue
  annual_revenue : JSValue
  founded_year : JSValue
  website_url : JSValue
deriving DecidableEq, Repr

/-- Person record of the Apollo response; `phone_numbers` holds each entry's
`sanitized_number`. -/
structure PersonDP where
  id : JSValue
  name : JSValue
  title : JSValue
  email : JSValue
  linkedin_url : JSValue
  city : JSValue
  state : JSValue
  organization : Option OrgDP
  phone_numbers : List JSValue
deriving DecidableEq, Repr

/-- Lead object produced by `ApolloAPI._processApiResponse`. -/
structure ApiLead where
  id : JSValue
  name : JSValue
  title : JSValue
  company : JSValue
  sector : JSValue
  employees : JSValue
  capital : JSValue
  yearFounded : JSValue
  email : JSValue
  linkedinUrl : JSValue
  phone : JSValue
  location : JSValue
  website : JSValue
  lastUpdated : String
deriving DecidableEq, Repr

/-- Optional chaining `o?.f`. -/
def orgField (o : Option OrgDP) (f : OrgDP → JSValue) : JSValue :=
  match o with
  | none => .null
  | some org => f org

/-- Optional chaining `xs?.[0]?...`. -/
def headJs : List JSValue → JSValue
  | [] => .null
  | v :: _ => v

/-- `ApolloAPI._processApiResponse`: map Apollo person records into the raw
lead shape, including the `person.city + ", " + person.state || ""`
concatenation with JavaScript `+` semantics. -/
def processApiResponse (env : Env) (people : List PersonDP) : List ApiLead :=
  people.map fun p =>
    ⟨p.id, p.name, p.title,
     (orgField p.organization (fun o => o.name)).jsOr (.str ""),
     (orgField p.organization (fun o => o.industry)).jsOr (.str ""),
     (orgField p.organization (fun o => o.estimated_num_employees)).jsOr (.num 0),
     (orgField p.organization (fun o => o.annual_revenue)).jsOr (.num 0),
     (orgField p.organization (fun o => o.founded_year)).jsOr .null,
     p.email.jsOr (.str ""),
     p.linkedin_url.jsOr (.str ""),
     (headJs p.phone_numbers).jsOr (.str ""),
     ((p.city.jsAdd (.str ", ")).jsAdd p.state).jsOr (.str ""),
     (orgField p.organization (fun o => o.website_url)).jsOr (.str ""),
     env.nowIso⟩

/-- Parsed JSON body of an Apollo HTTP response. -/
structure ApiBody where
  people : Option (List PersonDP)
deriving DecidableEq, Repr

/-- One HTTP response of the external API. -/
structure HttpResp where
  code : Nat
  body : ApiBody
deriving DecidableEq, Repr

/-- `ApolloAPI._makeApiCall` against a network oracle `net` (the response to
the k-th request): ONE `UrlFetchApp.fetch`, throwing on any non-200 status.
The second component counts HTTP requests performed. -/
def makeApiCall (net : Nat → HttpResp) (k : Nat) : Except JsErr ApiBody × Nat :=
  let r := net k
  if r.code ≠ 200 then
    (.error ("API call failed with status: " ++ toString r.code), 1)
  else (.ok r.body, 1)

/-- Truthiness of an optional JSON filter field. -/
def jsonTruthy : Option JsonVal → Bool
  | none => false
  | some (.s v) => v ≠ ""
  | some (.n v) => v ≠ 0
  | some (.arr _) => true

/-- JS `filters.k || d` on the filters object. -/
def jsonOrD (v : Option JsonVal) (d : JsonVal) : JsonVal :=
  if jsonTruthy v then v.getD d else d

/-- `ApolloAPI._mapCompanySize`. -/
def mapCompanySize (v : Option JsonVal) : JsonVal :=
  match v with
  | some (.s "1-10") => .arr [.s "1,10"]
  | some (.s "11-50") => .arr [.s "11,50"]
  | some (.s "51-200") => .arr [.s "51,200"]
  | some (.s "201-500") => .arr [.s "201,500"]
  | some (.s "501-1000") => .arr [.s "501,1000"]
  | some (.s "1000+") => .arr [.s "1001,10000"]
  | _ => .arr []

/-- `ApolloAPI._mapCapitalRange`. -/
def mapCapitalRange (v : Option JsonVal) : JsonVal :=
  match v with
  | some (.s "0-100k") => .arr [.s "0,100000"]
  | some (.s "100k-500k") => .arr [.s "100000,500000"]
  | some (.s "500k-1m") => .arr [.s "500000,1000000"]
  | some (.s "1m-5m") => .arr [.s "1000000,5000000"]
  | some (.s "5m+") => .arr [.s "5000000,100000000"]
  | _ => .arr []

/-- `ApolloAPI._buildPayload`: the base keys in insertion order, then the
conditional sector / founded-year / capital keys. -/
def buildPayload (apiKey : String) (filters : Filters) : Filters :=
  let base : Filters :=
    [("api_key", .s apiKey),
     ("q_organization_domains", jsonOrD (filters.lookup "domains") (.arr [])),
     ("person_titles", jsonOrD (filters.lookup "roles")
        (.arr [.s "CEO", .s "Owner", .s "Founder", .s "President"])),
     ("organization_num_employees_ranges", mapCompanySize (filters.lookup "companySize")),
     ("organization_locations", jsonOrD (filters.lookup "locations") (.arr [])),
     ("page", jsonOrD (filters.lookup "page") (.n 1)),
     ("per_page", jsonOrD (filters.lookup "perPage") (.n 25))]
  let withSector :=
    if jsonTruthy (filters.lookup "sector") then
      base ++ [("organization_industry_tag_ids",
                JsonVal.arr [(filters.lookup "sector").getD (.arr [])])]
    else base
  let withYear :=
    if jsonTruthy (filters.lookup "yearFounded") then
      withSector ++ [("organization_founded_year",
                      (filters.lookup "yearFounded").getD (.arr []))]
    else withSector
  if jsonTruthy (filters.lookup "capital") then
    withYear ++ [("organization_annual_revenue_ranges",
                  mapCapitalRange (filters.lookup "capital"))]
  else withYear

/-- The non-cached path of `ApolloAPI.fetchLeads`: build the payload, make
one API call, process the `people` list; the catch block converts any thrown
error into the fatal `Failed to fetch leads from Apollo.io` error.  The
second component counts HTTP requests. -/
def fetchLeadsCore (env : Env) (apiKey : String) (net : Nat → HttpResp)
    (filters : Filters) : Except JsErr (List ApiLead) × Nat :=
  let _payload := buildPayload apiKey filters
  match makeApiCall net 0 with
  | (.error _, n) => (.error "Failed to fetch leads from Apollo.io", n)
  | (.ok body, n) =>
    match body.people with
    | some people => (.ok (processApiResponse env people), n)
    | none => (.ok [], n)

/-- `ApolloAPI.fetchLeads`: serve from the cache when it holds a non-empty
entry for the derived key, otherwise go to the network. -/
def fetchLeads (env : Env) (apiKey : String)
    (cache : String → Option (List ApiLead)) (net : Nat → HttpResp)
    (filters : Filters) : Except JsErr (List ApiLead) × Nat :=
  match cache (generateCacheKey filters) with
  | some cachedData =>
    if cachedData.length > 0 then (.ok cachedData, 0)
    else fetchLeadsCore env apiKey net filters
  | none => fetchLeadsCore env apiKey net filters

/-! ## SheetManager (src/library/sheetManager.js) -/

/-- `SheetManager._getCompanySize`, the bucket helper used by the sheet
filter path (not by the statistics aggregator): note the 501-1000/1000+
split and the absence of an Unknown bucket. -/
def smGetCompanySize (employees : Int) : String :=
  if employees ≤ 10 then "1-10"
  else if employees ≤ 50 then "11-50"
  else if employees ≤ 200 then "51-200"
  else if employees ≤ 500 then "201-500"
  else if employees ≤ 1000 then "501-1000"
  else "1000+"

/-! ## Reference definitions written from the specification's words -/

/-- First-occurrence deduplication by a key, the specification's description
of the deduplicator (§4.3): keep a record exactly when its key has not been
seen before, first occurrence in input order winning. -/
def dedupByFirst (key : α → β) [DecidableEq β] : List α → List β → List α
  | [], _ => []
  | a :: rest, seen =>
    if key a ∈ seen then dedupByFirst key rest seen
    else a :: dedupByFirst key rest (key a :: seen)

/-- Modelled from the spec: the company-size partition stated by claim C6 and
§4.5 — 0 to Unknown, (0,10] to 1-10, (10,50] to 11-50, (50,200] to 51-200,
(200,500] to 201-500, everything above 500 to 500+. -/
def specBucket (n : Nat) : String :=
  if n = 0 then "Unknown"
  else if 1 ≤ n ∧ n ≤ 10 then "1-10"
  else if 11 ≤ n ∧ n ≤ 50 then "11-50"
  else if 51 ≤ n ∧ n ≤ 200 then "51-200"
  else if 201 ≤ n ∧ n ≤ 500 then "201-500"
  else "500+"

/-- Modelled from the spec: the retry policy described in §5 and claim C4 —
the external call is retried up to 3 attempts when the remote returns HTTP
429, a fatal error is propagated only after exhausting the retries, and any
other non-200 status is fatal immediately.  No such retry loop exists
anywhere under src/; this definition exists to be compared with
`makeApiCall`.  The second component counts HTTP requests. -/
def specRetryCall (net : Nat → HttpResp) : Nat → Nat → Except JsErr ApiBody × Nat
  | _, 0 => (.error "rate limited: retries exhausted", 0)
  | k, fuel + 1 =>
    let r := net k
    if r.code = 200 then (.ok r.body, 1)
    else if r.code = 429 then
      match specRetryCall net (k + 1) fuel with
      | (res, n) => (res, n + 1)
    else (.error ("API call failed with status: " ++ toString r.code), 1)

/-- Modelled from the spec: the API call with the 3-attempt retry bound. -/
def specMakeApiCallRetry (net : Nat → HttpResp) : Except JsErr ApiBody × Nat :=
  specRetryCall net 0 3

end LeadAuto

namespace LeadAuto

/-! ## Measurement helpers used to state the claims -/

/-- Number of newline characters in a string. -/
def nlCount (s : String) : Nat := s.data.count '\n'

/-- Number of lines of a text under the POSIX convention: a line is a maximal
newline-terminated or final non-empty segment, so `"a\nb\n"` and `"a\nb"`
both have two lines and `""` has none. -/
def lineCount (s : String) : Nat :=
  if s.data = [] then 0
  else nlCount s + (if s.data.getLast? = some '\n' then 0 else 1)

/-- The first line of a text: everything before the first newline. -/
def firstLine (s : String) : String := ⟨s.data.takeWhile (fun c => c ≠ '\n')⟩

/-- Is every character of the string ASCII (7-bit)? -/
def asciiStr (s : String) : Bool := s.data.all (fun c => c.toNat < 128)

/-- Is every key and every string value of a filters object ASCII?  (Arrays
are checked recursively through their serialization.) -/
def asciiFilters (fs : Filters) : Bool := asciiStr (jsonStringify fs)

/-! ## Concrete fixtures used by witnesses and counterexamples -/

/-- A fixed environment for concrete runs. -/
def env0 : Env := ⟨"u1", "2024-01-01T00:00:00.000Z", 2024⟩

/-- A LeadLib raw lead with the given name and e-mail, title `ceo`, company
`Acme`, and every other field absent. -/
def mkRawLL (name email : String) : RawLeadLL :=
  ⟨.null, .str name, .str "ceo", .str "Acme", .null, .null, .null,
   .str email, .null, .null, .null, .null, .null⟩

/-- A DataProcessor raw lead with the given name, title and e-mail, company
`Acme`, and every other field absent. -/
def mkRawDP (name title email : String) : RawLeadDP :=
  ⟨.null, .str name, .str title, .str "Acme", .null, .null, .null, .null,
   .str email, .null, .null, .null, .null⟩

/-- The cleaned record, seen-e-mail and seen-name produced from
`mkRawLL "wx" "w@x.co"` under `env0`. -/
def tW : CleanLeadLL × String × String :=
  (⟨.str "lead_u1", "Wx", "CEO", "Acme", "", 0, .str "", "w@x.co", "", "", "",
    "", "", "2024-01-01T00:00:00.000Z", false, "Apollo.io"⟩, "w@x.co", "wx")

/-- The cleaned record produced from `mkRawDP "john smith" "ceo" "JOHN@X.com"`
under `env0`. -/
def cpW : CleanLeadDP :=
  ⟨.str "u1", "John Smith", "CEO", "Acme", "Unknown", 0, 0, .null,
   "john@x.com", "", "", "", "", "2024-01-01T00:00:00.000Z", false⟩

/-- Network oracle answering 429 to the first request and 200 with an empty
people list afterwards. -/
def net429 : Nat → HttpResp :=
  fun k => if k = 0 then ⟨429, ⟨none⟩⟩ else ⟨200, ⟨some []⟩⟩

/-- A filters object, and the same key/value pairs in the opposite order. -/
def fOrder1 : Filters := [("page", .n 1), ("sector", .s "tech")]

/-- The pairs of `fOrder1`, reordered. -/
def fOrder2 : Filters := [("sector", .s "tech"), ("page", .n 1)]

/-- A LeadLib raw lead with title `CTO` and otherwise valid fields. -/
def ctoRawLL : RawLeadLL :=
  ⟨.null, .str "cto guy", .str "CTO", .str "Acme", .null, .null, .null,
   .str "c@x.co", .null, .null, .null, .null, .null⟩

/-! ## Lemmas about the character primitives -/

theorem char_toNat_inj {c d : Char} (h : c.toNat = d.toNat) : c = d := by
  rw [← Char.ofNat_toNat c, ← Char.ofNat_toNat d, h]

theorem char_ofNat_toNat_small {n : Nat} (h : n < 55296) : (Char.ofNat n).toNat = n := by
  unfold Char.ofNat
  rw [dif_pos (Or.inl h)]
  rfl

theorem jsCharToLower_toNat (c : Char) :
    (jsCharToLower c).toNat =
      if 65 ≤ c.toNat ∧ c.toNat ≤ 90 then c.toNat + 32 else c.toNat := by
  unfold jsCharToLower
  by_cases h : 65 ≤ c.toNat ∧ c.toNat ≤ 90
  · rw [if_pos h, if_pos h, char_ofNat_toNat_small (by omega)]
  · rw [if_neg h, if_neg h]

theorem jsCharToUpper_toNat (c : Char) :
    (jsCharToUpper c).toNat =
      if 97 ≤ c.toNat ∧ c.toNat ≤ 122 then c.toNat - 32 else c.toNat := by
  unfold jsCharToUpper
  by_cases h : 97 ≤ c.toNat ∧ c.toNat ≤ 122
  · rw [if_pos h, if_pos h, char_ofNat_toNat_small (by omega)]
  · rw [if_neg h, if_neg h]

theorem jsCharToLower_idem (c : Char) :
    jsCharToLower (jsCharToLower c) = jsCharToLower c := by
  apply char_toNat_inj
  rw [jsCharToLower_toNat, jsCharToLower_toNat c]
  by_cases h : 65 ≤ c.toNat ∧ c.toNat ≤ 90
  · rw [if_pos h, if_neg (by omega)]
  · rw [if_neg h, if_neg h]

theorem jsCharToLower_toUpper (c : Char) :
    jsCharToLower (jsCharToUpper c) = jsCharToLower c := by
  apply char_toNat_inj
  rw [jsCharToLower_toNat, jsCharToUpper_toNat, jsCharToLower_toNat]
  by_cases h : 97 ≤ c.toNat ∧ c.toNat ≤ 122
  · rw [if_pos h]
    have h65 : 65 ≤ c.toNat - 32 ∧ c.toNat - 32 ≤ 90 := by omega
    rw [if_pos h65, if_neg (by omega)]
    omega
  · rw [if_neg h]

theorem isJsWs_toNat (c : Char) :
    isJsWs c = (c.toNat = 32 || c.toNat = 9 || c.toNat = 10 || c.toNat = 13) := by
  unfold isJsWs
  by_cases h32 : c.toNat = 32
  · rw [char_toNat_inj (d := ' ') h32]; rfl
  · by_cases h9 : c.toNat = 9
    · rw [char_toNat_inj (d := '\t') h9]; rfl
    · by_cases h10 : c.toNat = 10
      · rw [char_toNat_inj (d := '\n') h10]; rfl
      · by_cases h13 : c.toNat = 13
        · rw [char_toNat_inj (d := '\r') h13]; rfl
        · have e32 : (c == ' ') = false := by
            simp only [beq_eq_false_iff_ne]; intro e; exact h32 (by rw [e]; rfl)
          have e9 : (c == '\t') = false := by
            simp only [beq_eq_false_iff_ne]; intro e; exact h9 (by rw [e]; rfl)
          have e10 : (c == '\n') = false := by
            simp only [beq_eq_false_iff_ne]; intro e; exact h10 (by rw [e]; rfl)
          have e13 : (c == '\r') = false := by
            simp only [beq_eq_false_iff_ne]; intro e; exact h13 (by rw [e]; rfl)
          simp [e32, e9, e10, e13, h32, h9, h10, h13]

theorem isJsWs_jsCharToLower (c : Char) : isJsWs (jsCharToLower c) = isJsWs c := by
  rw [isJsWs_toNat, isJsWs_toNat, jsCharToLower_toNat]
  by_cases h : 65 ≤ c.toNat ∧ c.toNat ≤ 90
  · rw [if_pos h, Bool.eq_iff_iff]
    simp only [Bool.or_eq_true, decide_eq_true_eq]
    omega
  · rw [if_neg h]

end LeadAuto

namespace LeadAuto

/-! ## Lemmas about the string primitives -/

theorem lowerL_idem (l : List Char) : lowerL (lowerL l) = lowerL l := by
  unfold lowerL
  rw [List.map_map]
  exact List.map_congr_left fun c _ => jsCharToLower_idem c

theorem jsStrToLower_idem (s : String) : jsStrToLower (jsStrToLower s) = jsStrToLower s := by
  unfold jsStrToLower
  exact congrArg String.mk (lowerL_idem s.data)

theorem dropWhile_of_all_not (p : Char → Bool) (l : List Char)
    (h : ∀ c ∈ l, p c = false) : l.dropWhile p = l := by
  induction l with
  | nil => rfl
  | cons c t ih =>
    rw [List.dropWhile_cons]
    rw [h c (List.mem_cons_self c t)]
    simp

theorem trimL_of_wsFree (l : List Char) (h : ∀ c ∈ l, isJsWs c = false) :
    trimL l = l := by
  unfold trimL
  rw [dropWhile_of_all_not _ _ h,
      dropWhile_of_all_not _ _ (fun c hc => h c (List.mem_reverse.mp hc)),
      List.reverse_reverse]

/-- Rejoin the pieces produced by `splitCharAux`. -/
def unsplit (sep : Char) : List (List Char) → List Char
  | [] => []
  | [x] => x
  | x :: rest => x ++ sep :: unsplit sep rest

theorem splitCharAux_ne_nil (sep : Char) (l acc : List Char) :
    splitCharAux sep l acc ≠ [] := by
  induction l generalizing acc with
  | nil => simp [splitCharAux]
  | cons c t ih =>
    unfold splitCharAux
    by_cases h : c = sep
    · rw [if_pos h]; simp
    · rw [if_neg h]; exact ih _

theorem unsplit_cons_of_ne_nil (sep : Char) (x : List Char) (rest : List (List Char))
    (h : rest ≠ []) : unsplit sep (x :: rest) = x ++ sep :: unsplit sep rest := by
  cases rest with
  | nil => exact absurd rfl h
  | cons y t => rfl

theorem unsplit_splitCharAux (sep : Char) (l acc : List Char) :
    unsplit sep (splitCharAux sep l acc) = acc.reverse ++ l := by
  induction l generalizing acc with
  | nil => simp [splitCharAux, unsplit]
  | cons c t ih =>
    unfold splitCharAux
    by_cases h : c = sep
    · rw [if_pos h,
          unsplit_cons_of_ne_nil sep _ _ (splitCharAux_ne_nil sep t []), ih []]
      simp [h]
    · rw [if_neg h, ih]
      simp

theorem emailRegexTest_data (s : String) (h : emailRegexTest s = true) :
    ∃ l r : List Char, s.data = l ++ '@' :: r ∧
      l ≠ [] ∧ (∀ c ∈ l, isJsWs c = false) ∧
      r ≠ [] ∧ (∀ c ∈ r, isJsWs c = false) ∧
      ((r.drop 1).dropLast.contains '.') = true := by
  unfold emailRegexTest at h
  split at h
  case h_2 => exact absurd h (by simp)
  case h_1 l r heq =>
    refine ⟨l, r, ?_, ?_, ?_, ?_, ?_, ?_⟩
    · have := unsplit_splitCharAux '@' s.data []
      rw [heq] at this
      simpa [unsplit] using this.symm
    all_goals
      simp only [Bool.and_eq_true, decide_eq_true_eq, List.all_eq_true,
        Bool.not_eq_true'] at h
      tauto

theorem emailRegexTest_wsFree (s : String) (h : emailRegexTest s = true) :
    ∀ c ∈ s.data, isJsWs c = false := by
  obtain ⟨l, r, hdata, _, hl, _, hr, _⟩ := emailRegexTest_data s h
  intro c hc
  rw [hdata] at hc
  rcases List.mem_append.mp hc with hcl | hcr
  · exact hl c hcl
  · rcases List.mem_cons.mp hcr with hat | hcr
    · subst hat; rfl
    · exact hr c hcr

theorem jsStrToLower_wsFree (s : String) (h : ∀ c ∈ s.data, isJsWs c = false) :
    ∀ c ∈ (jsStrToLower s).data, isJsWs c = false := by
  intro c hc
  simp only [jsStrToLower, lowerL] at hc
  obtain ⟨d, hd, rfl⟩ := List.mem_map.mp hc
  rw [isJsWs_jsCharToLower]
  exact h d hd

theorem jsTrim_jsStrToLower_of_email (s : String) (h : emailRegexTest s = true) :
    jsTrim (jsStrToLower s) = jsStrToLower s := by
  unfold jsTrim
  have := trimL_of_wsFree (jsStrToLower s).data
    (jsStrToLower_wsFree s (emailRegexTest_wsFree s h))
  rw [this]

end LeadAuto

namespace LeadAuto

/-! ## Lemmas about the LeadLib pipeline -/

theorem bind_ok_elim {α β : Type} {x : Except JsErr α} {f : α → Except JsErr β} {b : β}
    (h : (x >>= f) = .ok b) : ∃ a, x = .ok a ∧ f a = .ok b := by
  cases x with
  | error e => exact Except.noConfusion h
  | ok a => exact ⟨a, rfl, h⟩

theorem llStep_none (env : Env) (sE sN : List String) :
    llStep env none sE sN = .error "TypeError" := rfl

theorem llBuild_ok_elim {env : Env} {r : RawLeadLL} {c : CleanLeadLL}
    (h : llBuild env r = .ok c) :
    ∃ es, r.email = .str es ∧ c.email = jsTrim (jsStrToLower es) := by
  unfold llBuild at h
  obtain ⟨name, h1, h⟩ := bind_ok_elim h
  obtain ⟨title, h2, h⟩ := bind_ok_elim h
  obtain ⟨company, h3, h⟩ := bind_ok_elim h
  obtain ⟨industry, h4, h⟩ := bind_ok_elim h
  obtain ⟨es, h5, h⟩ := bind_ok_elim h
  obtain ⟨phone, h6, h⟩ := bind_ok_elim h
  obtain ⟨location, h7, h⟩ := bind_ok_elim h
  obtain ⟨linkedin, h8, h⟩ := bind_ok_elim h
  obtain ⟨website, h9, h⟩ := bind_ok_elim h
  obtain ⟨description, h10, h⟩ := bind_ok_elim h
  refine ⟨es, ?_, ?_⟩
  · cases he : r.email with
    | str s => rw [he] at h5; cases h5; rfl
    | null => rw [he] at h5; exact Except.noConfusion h5
    | num n => rw [he] at h5; exact Except.noConfusion h5
    | bool b => rw [he] at h5; exact Except.noConfusion h5
  · cases h; rfl

end LeadAuto

namespace LeadAuto

theorem llStep_ok_elim {env : Env} {r : RawLeadLL} {sE sN : List String}
    {t : CleanLeadLL × String × String}
    (h : llStep env (some r) sE sN = .ok (some t)) :
    ∃ es ns,
      r.email = .str es ∧ r.name = .str ns ∧
      r.email.truthy = true ∧ llIsValidEmail r.email = true ∧
      r.name.truthy = true ∧ llIsValidName r.name = true ∧
      emailRegexTest es = true ∧
      t.2.1 = jsStrToLower es ∧ t.2.2 = jsStrToLower ns ∧
      sE.contains (jsStrToLower es) = false ∧ sN.contains (jsStrToLower ns) = false ∧
      llBuild env r = .ok t.1 ∧
      t.1.email = jsStrToLower es := by
  replace h : llStepSome env r sE sN = .ok (some t) := h
  unfold llStepSome at h
  split at h
  case isTrue => exact absurd (Except.ok.inj h) (by simp)
  case isFalse hg1 =>
  split at h
  case isTrue => exact absurd (Except.ok.inj h) (by simp)
  case isFalse hg2 =>
  obtain ⟨es, hes, h⟩ := bind_ok_elim h
  try simp only at h
  split at h
  case isTrue => exact absurd (Except.ok.inj h) (by simp)
  case isFalse hcE =>
  obtain ⟨ns, hns, h⟩ := bind_ok_elim h
  try simp only at h
  split at h
  case isTrue => exact absurd (Except.ok.inj h) (by simp)
  case isFalse hcN =>
  obtain ⟨c, hbuild, h⟩ := bind_ok_elim h
  have ht : t = (c, jsStrToLower es, jsStrToLower ns) :=
    (Option.some.inj (Except.ok.inj h)).symm
  have hemailStr : r.email = .str es := by
    cases he : r.email with
    | str s => rw [he] at hes; cases hes; rfl
    | null => rw [he] at hes; exact Except.noConfusion hes
    | num n => rw [he] at hes; exact Except.noConfusion hes
    | bool b => rw [he] at hes; exact Except.noConfusion hes
  have hnameStr : r.name = .str ns := by
    cases hn : r.name with
    | str s => rw [hn] at hns; cases hns; rfl
    | null => rw [hn] at hns; exact Except.noConfusion hns
    | num n => rw [hn] at hns; exact Except.noConfusion hns
    | bool b => rw [hn] at hns; exact Except.noConfusion hns
  rw [Decidable.not_not] at hg1 hg2
  have hvalidE : llIsValidEmail r.email = true := hg1.2
  have hregex : emailRegexTest es = true := by
    have := hvalidE
    rw [hemailStr] at this
    simpa [llIsValidEmail, JSValue.coerceStr] using this
  have hmailc : c.email = jsStrToLower es := by
    obtain ⟨es2, hes2, hc⟩ := llBuild_ok_elim hbuild
    rw [hemailStr] at hes2
    cases hes2
    rw [hc, jsTrim_jsStrToLower_of_email es hregex]
  subst ht
  refine ⟨es, ns, hemailStr, hnameStr, hg1.1, hg1.2, hg2.1, hg2.2, hregex,
    rfl, rfl, ?_, ?_, hbuild, hmailc⟩
  · simpa using hcE
  · simpa using hcN

end LeadAuto

namespace LeadAuto

theorem llStep_mono {env : Env} {r : RawLeadLL} {sE sN sE' sN' : List String}
    {t : CleanLeadLL × String × String}
    (h : llStep env (some r) sE sN = .ok (some t))
    (hE : sE'.contains t.2.1 = false) (hN : sN'.contains t.2.2 = false) :
    llStep env (some r) sE' sN' = .ok (some t) := by
  obtain ⟨es, ns, hes, hns, ht1, hv1, ht2, hv2, hregex, he1, he2, hcE, hcN, hbuild, hmail⟩ :=
    llStep_ok_elim h
  rw [he1] at hE
  rw [he2] at hN
  show llStepSome env r sE' sN' = .ok (some t)
  unfold llStepSome
  rw [if_neg (by simp [ht1, hv1]), if_neg (by simp [ht2, hv2]), hes, hns]
  simp only [JSValue.asStrMethod, Bind.bind, Except.bind]
  rw [if_neg (by simpa using hE), if_neg (by simpa using hN), hbuild]
  rw [← he1, ← he2]

end LeadAuto

namespace LeadAuto

theorem contains_cons_false {a x : String} {l : List String}
    (h : (a :: l).contains x = false) : x ≠ a ∧ l.contains x = false := by
  rw [List.contains_cons, Bool.or_eq_false_iff] at h
  exact ⟨by simpa using h.1, h.2⟩

theorem llStep_ok_of_some {env : Env} {x : Option RawLeadLL} {sE sN : List String}
    {t : CleanLeadLL × String × String}
    (h : llStep env x sE sN = .ok (some t)) :
    ∃ r, x = some r ∧ llStep env (some r) sE sN = .ok (some t) := by
  cases x with
  | none => exact Except.noConfusion h
  | some r => exact ⟨r, rfl, h⟩

theorem llGoT_fresh_pairwise (env : Env) (l : List (Option RawLeadLL)) :
    ∀ (sE sN : List String),
      (∀ t ∈ llGoT env l sE sN, sE.contains t.2.1 = false ∧ sN.contains t.2.2 = false) ∧
      (llGoT env l sE sN).Pairwise (fun a b => a.2.1 ≠ b.2.1 ∧ a.2.2 ≠ b.2.2) := by
  induction l with
  | nil =>
    intro sE sN
    exact ⟨fun t ht => absurd ht (by simp [llGoT]), by simp [llGoT]⟩
  | cons x rest ih =>
    intro sE sN
    cases hstep : llStep env x sE sN with
    | error e => simpa only [llGoT, hstep] using ih sE sN
    | ok opt =>
      cases opt with
      | none => simpa only [llGoT, hstep] using ih sE sN
      | some t =>
        obtain ⟨r, hx, hstep'⟩ := llStep_ok_of_some hstep
        obtain ⟨es, ns, _, _, _, _, _, _, _, he1, he2, hcE, hcN, _, _⟩ :=
          llStep_ok_elim hstep'
        have hgo : llGoT env (x :: rest) sE sN
            = t :: llGoT env rest (t.2.1 :: sE) (t.2.2 :: sN) := by
          simp only [llGoT, hstep]
        rw [hgo]
        obtain ⟨ihf, ihp⟩ := ih (t.2.1 :: sE) (t.2.2 :: sN)
        constructor
        · intro u hu
          rcases List.mem_cons.mp hu with rfl | hu
          · exact ⟨he1 ▸ hcE, he2 ▸ hcN⟩
          · obtain ⟨h1, h2⟩ := ihf u hu
            exact ⟨(contains_cons_false h1).2, (contains_cons_false h2).2⟩
        · refine List.Pairwise.cons ?_ ihp
          intro u hu
          obtain ⟨h1, h2⟩ := ihf u hu
          exact ⟨Ne.symm (contains_cons_false h1).1, Ne.symm (contains_cons_false h2).1⟩

theorem llGoT_mem_elim {env : Env} {l : List (Option RawLeadLL)} {sE sN : List String}
    {t : CleanLeadLL × String × String} (h : t ∈ llGoT env l sE sN) :
    ∃ r sE' sN', llStep env (some r) sE' sN' = .ok (some t) := by
  induction l generalizing sE sN with
  | nil => exact absurd h (by simp [llGoT])
  | cons x rest ih =>
    cases hstep : llStep env x sE sN with
    | error e =>
      rw [show llGoT env (x :: rest) sE sN = llGoT env rest sE sN by
        simp only [llGoT, hstep]] at h
      exact ih h
    | ok opt =>
      cases opt with
      | none =>
        rw [show llGoT env (x :: rest) sE sN = llGoT env rest sE sN by
          simp only [llGoT, hstep]] at h
        exact ih h
      | some u =>
        rw [show llGoT env (x :: rest) sE sN
            = u :: llGoT env rest (u.2.1 :: sE) (u.2.2 :: sN) by
          simp only [llGoT, hstep]] at h
        rcases List.mem_cons.mp h with rfl | h
        · obtain ⟨r, _, hstep'⟩ := llStep_ok_of_some hstep
          exact ⟨r, sE, sN, hstep'⟩
        · exact ih h

end LeadAuto

namespace LeadAuto

theorem llGoT_mem_email {env : Env} {l : List (Option RawLeadLL)} {sE sN : List String}
    {t : CleanLeadLL × String × String} (h : t ∈ llGoT env l sE sN) :
    t.1.email = t.2.1 ∧ jsStrToLower t.1.email = t.2.1 := by
  obtain ⟨r, sE', sN', hstep⟩ := llGoT_mem_elim h
  obtain ⟨es, ns, _, _, _, _, _, _, _, he1, _, _, _, _, hmail⟩ := llStep_ok_elim hstep
  constructor
  · rw [hmail, he1]
  · rw [hmail, he1, jsStrToLower_idem]

theorem llCleanLeads_email_pairwise (env : Env) (batch : List (Option RawLeadLL)) :
    (llCleanLeads env batch).Pairwise
      (fun a b => jsStrToLower a.email ≠ jsStrToLower b.email) := by
  unfold llCleanLeads
  rw [List.pairwise_map]
  have hp := (llGoT_fresh_pairwise env batch [] []).2
  refine List.Pairwise.imp_of_mem ?_ hp
  intro a b ha hb hab
  have hea := (llGoT_mem_email ha).2
  have heb := (llGoT_mem_email hb).2
  rw [hea, heb]
  exact hab.1

theorem pairwise_eq_of_key {α β : Type} {l : List α} {key : α → β}
    (hp : l.Pairwise (fun a b => key a ≠ key b)) {a b : α}
    (ha : a ∈ l) (hb : b ∈ l) (hk : key a = key b) : a = b := by
  by_contra hne
  have hsymm : Symmetric (fun a b : α => key a ≠ key b) :=
    fun _ _ h e => h e.symm
  exact hp.forall hsymm ha hb hne hk

theorem llGoT_mem_first (env : Env) :
    ∀ (l1 : List (Option RawLeadLL)) (r : RawLeadLL) (l2 : List (Option RawLeadLL))
      (t : CleanLeadLL × String × String) (sE sN : List String),
      llStep env (some r) sE sN = .ok (some t) →
      (∀ x ∈ l1, ∀ s, x = some s →
        jsStrToLower s.email.coerceStr ≠ t.2.1 ∧ jsStrToLower s.name.coerceStr ≠ t.2.2) →
      t ∈ llGoT env (l1 ++ some r :: l2) sE sN := by
  intro l1
  induction l1 with
  | nil =>
    intro r l2 t sE sN hstep _
    rw [List.nil_append]
    rw [show llGoT env (some r :: l2) sE sN
        = t :: llGoT env l2 (t.2.1 :: sE) (t.2.2 :: sN) by simp only [llGoT, hstep]]
    exact List.mem_cons_self t _
  | cons x l1t ih =>
    intro r l2 t sE sN hstep hfresh
    rw [List.cons_append]
    cases hstepx : llStep env x sE sN with
    | error e =>
      rw [show llGoT env (x :: (l1t ++ some r :: l2)) sE sN
          = llGoT env (l1t ++ some r :: l2) sE sN by simp only [llGoT, hstepx]]
      exact ih r l2 t sE sN hstep fun y hy => hfresh y (List.mem_cons_of_mem x hy)
    | ok opt =>
      cases opt with
      | none =>
        rw [show llGoT env (x :: (l1t ++ some r :: l2)) sE sN
            = llGoT env (l1t ++ some r :: l2) sE sN by simp only [llGoT, hstepx]]
        exact ih r l2 t sE sN hstep fun y hy => hfresh y (List.mem_cons_of_mem x hy)
      | some u =>
        rw [show llGoT env (x :: (l1t ++ some r :: l2)) sE sN
            = u :: llGoT env (l1t ++ some r :: l2) (u.2.1 :: sE) (u.2.2 :: sN) by
          simp only [llGoT, hstepx]]
        obtain ⟨s, hx, hstepx'⟩ := llStep_ok_of_some hstepx
        obtain ⟨esu, nsu, hesu, hnsu, _, _, _, _, _, hu1, hu2, _, _, _, _⟩ :=
          llStep_ok_elim hstepx'
        obtain ⟨est, nst, _, _, _, _, _, _, _, ht1, ht2, hcEt, hcNt, _, _⟩ :=
          llStep_ok_elim hstep
        have hxs := hfresh x (List.mem_cons_self x _) s hx
        have hne1 : u.2.1 ≠ t.2.1 := by
          rw [hu1]
          have hx1 := hxs.1
          rw [hesu] at hx1
          simpa [JSValue.coerceStr] using hx1
        have hne2 : u.2.2 ≠ t.2.2 := by
          rw [hu2]
          have hx2 := hxs.2
          rw [hnsu] at hx2
          simpa [JSValue.coerceStr] using hx2
        have hcE' : (u.2.1 :: sE).contains t.2.1 = false := by
          rw [List.contains_cons, Bool.or_eq_false_iff]
          refine ⟨by simpa using fun e => hne1 (by rw [e]), ?_⟩
          rw [ht1]
          exact hcEt
        have hcN' : (u.2.2 :: sN).contains t.2.2 = false := by
          rw [List.contains_cons, Bool.or_eq_false_iff]
          refine ⟨by simpa using fun e => hne2 (by rw [e]), ?_⟩
          rw [ht2]
          exact hcNt
        have hstep' := llStep_mono hstep hcE' hcN'
        exact List.mem_cons_of_mem u
          (ih r l2 t _ _ hstep' fun y hy => hfresh y (List.mem_cons_of_mem x hy))

end LeadAuto

namespace LeadAuto

theorem llStep_error_any_state (env : Env) (x : Option RawLeadLL) (sE sN : List String)
    (hbad : ∃ e, llStep env x [] [] = .error e) :
    (∃ e, llStep env x sE sN = .error e) ∨ llStep env x sE sN = .ok none := by
  cases x with
  | none => exact .inl ⟨"TypeError", rfl⟩
  | some r =>
    obtain ⟨e, he⟩ := hbad
    replace he : llStepSome env r [] [] = .error e := he
    show (∃ e, llStepSome env r sE sN = .error e) ∨ llStepSome env r sE sN = .ok none
    unfold llStepSome at he ⊢
    split at he
    case isTrue hg => exact Except.noConfusion he
    case isFalse hg1 =>
    split at he
    case isTrue hg => exact Except.noConfusion he
    case isFalse hg2 =>
    rw [if_neg hg1, if_neg hg2]
    simp only [Bind.bind, Except.bind] at he ⊢
    cases hes : r.email.asStrMethod with
    | error e2 =>
      try simp only [hes] at he
      try simp only [hes]
      exact .inl ⟨e2, rfl⟩
    | ok es =>
      try simp only [hes] at he
      try simp only [hes]
      rw [if_neg (by simp)] at he
      by_cases hcE : sE.contains (jsStrToLower es) = true
      · rw [if_pos hcE]
        exact .inr rfl
      · rw [if_neg hcE]
        cases hns : r.name.asStrMethod with
        | error e3 =>
          try simp only [hns] at he
          try simp only [hns]
          exact .inl ⟨e3, rfl⟩
        | ok ns =>
          try simp only [hns] at he
          try simp only [hns]
          rw [if_neg (by simp)] at he
          by_cases hcN : sN.contains (jsStrToLower ns) = true
          · rw [if_pos hcN]
            exact .inr rfl
          · rw [if_neg hcN]
            cases hb : llBuild env r with
            | error e4 =>
              try simp only [hb] at he
              try simp only [hb]
              exact .inl ⟨e4, rfl⟩
            | ok c =>
              try simp only [hb] at he
              exact Except.noConfusion he

theorem llGoT_skip_error (env : Env) (bad : Option RawLeadLL)
    (hbad : ∃ e, llStep env bad [] [] = .error e) :
    ∀ (l1 l2 : List (Option RawLeadLL)) (sE sN : List String),
      llGoT env (l1 ++ bad :: l2) sE sN = llGoT env (l1 ++ l2) sE sN := by
  intro l1
  induction l1 with
  | nil =>
    intro l2 sE sN
    rcases llStep_error_any_state env bad sE sN hbad with ⟨e, he⟩ | hnone
    · simp only [List.nil_append, llGoT, he]
    · simp only [List.nil_append, llGoT, hnone]
  | cons x l1t ih =>
    intro l2 sE sN
    rw [List.cons_append, List.cons_append]
    cases hstepx : llStep env x sE sN with
    | error e => simp only [llGoT, hstepx, ih]
    | ok opt =>
      cases opt with
      | none => simp only [llGoT, hstepx, ih]
      | some u => simp only [llGoT, hstepx, ih]

end LeadAuto

namespace LeadAuto

/-! ## Lemmas about the DataProcessor (apolloApi.js) normalizers -/

theorem dpCleanName_isOk (v : JSValue) : (dpCleanName v).isOk = true := by
  cases v <;> unfold dpCleanName <;> (try split) <;> (try split) <;>
    simp_all [JSValue.asStrMethod, JSValue.truthy, JSValue.isStr,
      Bind.bind, Except.bind, Except.isOk, Except.toBool]

theorem dpCleanTitle_isOk (v : JSValue) : (dpCleanTitle v).isOk = true := by
  cases v <;> unfold dpCleanTitle <;> (try split) <;>
    (try (simp only [JSValue.asStrMethod, Bind.bind, Except.bind]; split)) <;>
    simp_all [JSValue.truthy, JSValue.isStr, Except.isOk, Except.toBool] <;>
    split <;> simp [Except.isOk]

theorem dpCleanCompanyName_isOk (v : JSValue) : (dpCleanCompanyName v).isOk = true := by
  cases v <;> unfold dpCleanCompanyName <;> (try split) <;> (try split) <;>
    simp_all [JSValue.asStrMethod, JSValue.truthy, JSValue.isStr,
      Bind.bind, Except.bind, Except.isOk, Except.toBool]

theorem dpCleanSector_isOk (v : JSValue) : (dpCleanSector v).isOk = true := by
  cases v <;> unfold dpCleanSector <;> (try split) <;> (try split) <;>
    simp_all [JSValue.asStrMethod, JSValue.truthy, JSValue.isStr,
      Bind.bind, Except.bind, Except.isOk, Except.toBool]

theorem dpCleanEmail_isOk (v : JSValue) : (dpCleanEmail v).isOk = true := by
  cases v <;> unfold dpCleanEmail <;> (try split) <;> (try split) <;>
    simp_all [JSValue.asStrMethod, JSValue.truthy, JSValue.isStr,
      Bind.bind, Except.bind, Except.isOk, Except.toBool]

theorem dpCleanPhone_isOk (v : JSValue) : (dpCleanPhone v).isOk = true := by
  cases v <;> unfold dpCleanPhone <;> (try split) <;> (try split) <;>
    simp_all [JSValue.asStrMethod, JSValue.truthy, JSValue.isStr,
      Bind.bind, Except.bind, Except.isOk, Except.toBool]

theorem dpCleanLocation_isOk (v : JSValue) : (dpCleanLocation v).isOk = true := by
  cases v <;> unfold dpCleanLocation <;> (try split) <;> (try split) <;>
    simp_all [JSValue.asStrMethod, JSValue.truthy, JSValue.isStr,
      Bind.bind, Except.bind, Except.isOk, Except.toBool]

theorem dpCleanUrl_isOk (v : JSValue) : (dpCleanUrl v).isOk = true := by
  cases v <;> unfold dpCleanUrl <;> (try split) <;> (try split) <;>
    simp_all [JSValue.asStrMethod, JSValue.truthy, JSValue.isStr,
      Bind.bind, Except.bind, Except.isOk, Except.toBool]

theorem isOk_exists {α : Type} {x : Except JsErr α} (h : x.isOk = true) :
    ∃ a, x = .ok a := by
  cases x with
  | error e => simp [Except.isOk, Except.toBool] at h
  | ok a => exact ⟨a, rfl⟩

theorem dpCleanEmail_lower {v : JSValue} {s : String} (h : dpCleanEmail v = .ok s) :
    jsStrToLower s = s := by
  cases v with
  | str s0 =>
    unfold dpCleanEmail at h
    split at h
    · cases h
      rfl
    · simp only [JSValue.asStrMethod, Bind.bind, Except.bind] at h
      cases h
      split
      · rw [jsStrToLower_idem]
      · rfl
  | null =>
    unfold dpCleanEmail at h
    rw [if_pos (by simp [JSValue.truthy])] at h
    cases h
    rfl
  | num n =>
    unfold dpCleanEmail at h
    rw [if_pos (by simp [JSValue.isStr])] at h
    cases h
    rfl
  | bool b =>
    unfold dpCleanEmail at h
    rw [if_pos (by simp [JSValue.isStr])] at h
    cases h
    rfl

end LeadAuto

namespace LeadAuto

theorem dpCleanIndividual_ok_elim {env : Env} {x : Option RawLeadDP} {c : CleanLeadDP}
    (h : dpCleanIndividual env x = .ok c) :
    ∃ lead, x = some lead ∧
      dpCleanEmail lead.email = .ok c.email ∧ dpCleanTitle lead.title = .ok c.title := by
  cases x with
  | none => exact Except.noConfusion h
  | some lead =>
    refine ⟨lead, rfl, ?_⟩
    unfold dpCleanIndividual at h
    obtain ⟨name, h1, h⟩ := bind_ok_elim h
    obtain ⟨title, h2, h⟩ := bind_ok_elim h
    obtain ⟨company, h3, h⟩ := bind_ok_elim h
    obtain ⟨sector, h4, h⟩ := bind_ok_elim h
    obtain ⟨email, h5, h⟩ := bind_ok_elim h
    obtain ⟨linkedinUrl, h6, h⟩ := bind_ok_elim h
    obtain ⟨phone, h7, h⟩ := bind_ok_elim h
    obtain ⟨location, h8, h⟩ := bind_ok_elim h
    obtain ⟨website, h9, h⟩ := bind_ok_elim h
    cases h
    exact ⟨h5, h2⟩

theorem dpCleanAll_mem {env : Env} {batch : List (Option RawLeadDP)}
    {cleaned : List CleanLeadDP} (h : dpCleanAll env batch = .ok cleaned) :
    ∀ c ∈ cleaned, jsStrToLower c.email = c.email := by
  induction batch generalizing cleaned with
  | nil =>
    unfold dpCleanAll at h
    cases h
    intro c hc
    exact absurd hc (by simp)
  | cons x rest ih =>
    unfold dpCleanAll at h
    obtain ⟨c0, h1, h⟩ := bind_ok_elim h
    obtain ⟨cs, h2, h⟩ := bind_ok_elim h
    cases h
    intro c hc
    rcases List.mem_cons.mp hc with rfl | hc
    · obtain ⟨lead, _, hmail, _⟩ := dpCleanIndividual_ok_elim h1
      exact dpCleanEmail_lower hmail
    · exact ih h2 c hc

/-! ## The `_deduplicateLead` filter equals first-occurrence deduplication -/

theorem findIdx_append_left {α : Type} (p : α → Bool) (l1 l2 : List α)
    (h : l1.any p = true) : (l1 ++ l2).findIdx p = l1.findIdx p := by
  induction l1 with
  | nil => simp at h
  | cons a t ih =>
    rw [List.any_cons, Bool.or_eq_true] at h
    rw [List.cons_append, List.findIdx_cons, List.findIdx_cons]
    cases hp : p a with
    | true => rfl
    | false =>
      rcases h with h | h
      · exact absurd h (by simp [hp])
      · simp [ih h]

theorem findIdx_append_right {α : Type} (p : α → Bool) (l1 l2 : List α)
    (h : l1.any p = false) : (l1 ++ l2).findIdx p = l1.length + l2.findIdx p := by
  induction l1 with
  | nil => simp
  | cons a t ih =>
    rw [List.any_cons, Bool.or_eq_false_iff] at h
    rw [List.cons_append, List.findIdx_cons, h.1, ih h.2]
    simp
    omega

theorem findIdx_lt_of_any {α : Type} (p : α → Bool) (l : List α) (h : l.any p = true) :
    l.findIdx p < l.length := by
  induction l with
  | nil => simp at h
  | cons a t ih =>
    rw [List.any_cons, Bool.or_eq_true] at h
    rw [List.findIdx_cons]
    cases hp : p a with
    | true => simp
    | false =>
      rcases h with h | h
      · exact absurd h (by simp [hp])
      · simpa using Nat.succ_lt_succ (ih h)

theorem dedupByFirst_mem {α β : Type} [DecidableEq β] {key : α → β} :
    ∀ {l : List α} {seen : List β} {a : α}, a ∈ dedupByFirst key l seen → a ∈ l := by
  intro l
  induction l with
  | nil => intro seen a h; exact absurd h (by simp [dedupByFirst])
  | cons x t ih =>
    intro seen a h
    unfold dedupByFirst at h
    split at h
    · exact List.mem_cons_of_mem x (ih h)
    · rcases List.mem_cons.mp h with rfl | h
      · exact List.mem_cons_self a t
      · exact List.mem_cons_of_mem x (ih h)

theorem dedupByFirst_pairwise {α β : Type} [DecidableEq β] (key : α → β) :
    ∀ (l : List α) (seen : List β),
      (∀ a ∈ dedupByFirst key l seen, key a ∉ seen) ∧
      (dedupByFirst key l seen).Pairwise (fun a b => key a ≠ key b) := by
  intro l
  induction l with
  | nil => intro seen; exact ⟨fun a h => absurd h (by simp [dedupByFirst]), by simp [dedupByFirst]⟩
  | cons x t ih =>
    intro seen
    unfold dedupByFirst
    split
    case isTrue hk =>
      exact ih seen
    case isFalse hk =>
      obtain ⟨ihf, ihp⟩ := ih (key x :: seen)
      constructor
      · intro a ha
        rcases List.mem_cons.mp ha with rfl | ha
        · exact hk
        · exact fun hmem => (ihf a ha) (List.mem_cons_of_mem _ hmem)
      · refine List.Pairwise.cons ?_ ihp
        intro b hb hkey
        exact (ihf b hb) (hkey ▸ List.mem_cons_self (key x) seen)

theorem filterIdx_eq_dedupByFirst {α : Type} (key : α → String) (L : List α) :
    ∀ (suf pre : List α) (seen : List String),
      L = pre ++ suf →
      (∀ k, k ∈ seen ↔ k ∈ pre.map key) →
      filterIdxAux (fun a i => L.findIdx (fun b => key b == key a) == i) suf pre.length
        = dedupByFirst key suf seen := by
  intro suf
  induction suf with
  | nil => intro pre seen hL hseen; rfl
  | cons x t ih =>
    intro pre seen hL hseen
    unfold filterIdxAux dedupByFirst
    by_cases hk : key x ∈ pre.map key
    · have hany : pre.any (fun b => key b == key x) = true := by
        rw [List.any_eq_true]
        obtain ⟨b, hb, hkey⟩ := List.mem_map.mp hk
        exact ⟨b, hb, by simp [hkey]⟩
      have hfi : L.findIdx (fun b => key b == key x) < pre.length := by
        rw [hL, findIdx_append_left _ _ _ hany]
        exact findIdx_lt_of_any _ _ hany
      rw [if_neg (by simp only [beq_iff_eq]; omega),
          if_pos ((hseen (key x)).mpr hk)]
      have := ih (pre ++ [x]) seen (by rw [hL]; simp) (fun k => by
        rw [hseen k]
        simp only [List.map_append, List.map_cons, List.map_nil, List.mem_append,
          List.mem_singleton]
        constructor
        · exact fun hm => Or.inl hm
        · rintro (hm | rfl)
          · exact hm
          · exact hk)
      rw [show pre.length + 1 = (pre ++ [x]).length by simp]
      exact this
    · have hany : pre.any (fun b => key b == key x) = false := by
        rw [← Bool.not_eq_true, List.any_eq_true]
        rintro ⟨b, hb, hkey⟩
        rw [beq_iff_eq] at hkey
        exact hk (List.mem_map.mpr ⟨b, hb, hkey⟩)
      have hfi : L.findIdx (fun b => key b == key x) = pre.length := by
        rw [hL, findIdx_append_right _ _ _ hany, List.findIdx_cons]
        simp
      rw [if_pos (by simp [hfi]),
          if_neg (fun hmem => hk ((hseen (key x)).mp hmem))]
      have := ih (pre ++ [x]) (key x :: seen) (by rw [hL]; simp) (fun k => by
        simp only [List.mem_cons, List.map_append, List.map_cons, List.map_nil,
          List.mem_append, List.mem_singleton]
        rw [hseen k]
        tauto)
      rw [show pre.length + 1 = (pre ++ [x]).length by simp]
      exact congrArg (x :: ·) this

theorem dpDedup_eq_dedupByFirst (validated : List CleanLeadDP) :
    dpDedup validated = dedupByFirst (fun c => c.email) validated [] := by
  unfold dpDedup
  have := filterIdx_eq_dedupByFirst (fun c : CleanLeadDP => c.email) validated
    validated [] [] rfl (by simp)
  simpa using this

end LeadAuto

namespace LeadAuto

theorem dpCleanLeads_eq {env : Env} {batch : List (Option RawLeadDP)}
    {cleaned : List CleanLeadDP} (h : dpCleanAll env batch = .ok cleaned) :
    dpCleanLeads env batch
      = .ok (dedupByFirst (fun c => c.email) (cleaned.filter dpValidateLead) []) := by
  unfold dpCleanLeads
  rw [h]
  simp only [Bind.bind, Except.bind]
  rw [dpDedup_eq_dedupByFirst]

/-! ## Lemmas about CSV line structure -/

theorem nlCount_append (a b : String) : nlCount (a ++ b) = nlCount a + nlCount b := by
  unfold nlCount
  rw [String.data_append, List.count_append]

theorem nlCount_jsJoin_zero (sep : String) (hsep : nlCount sep = 0) :
    ∀ (parts : List String), (∀ p ∈ parts, nlCount p = 0) → nlCount (jsJoin sep parts) = 0 := by
  intro parts
  induction parts with
  | nil => intro h; rfl
  | cons x t ih =>
    intro h
    cases t with
    | nil => exact h x (by simp)
    | cons y tt =>
      show nlCount (x ++ sep ++ jsJoin sep (y :: tt)) = 0
      rw [nlCount_append, nlCount_append, h x (by simp), hsep,
        ih (fun p hp => h p (List.mem_cons_of_mem x hp))]

theorem nlCount_concat_rows (rows : List String) (h : ∀ r ∈ rows, nlCount r = 0) :
    nlCount (concatStrs (rows.map fun r => r ++ "\n")) = rows.length := by
  induction rows with
  | nil => rfl
  | cons x t ih =>
    show nlCount ((x ++ "\n") ++ concatStrs (t.map fun r => r ++ "\n")) = t.length + 1
    rw [nlCount_append, nlCount_append, h x (by simp),
      ih (fun r hr => h r (List.mem_cons_of_mem x hr)),
      show nlCount "\n" = 1 from rfl]
    omega

theorem getLast?_append_of_ne_nil (l1 : List Char) :
    ∀ (l2 : List Char), l2 ≠ [] → (l1 ++ l2).getLast? = l2.getLast? := by
  induction l1 with
  | nil => intro l2 h; rfl
  | cons a t ih =>
    intro l2 h
    rw [List.cons_append]
    cases hq : t ++ l2 with
    | nil => exact absurd (List.append_eq_nil.mp hq).2 h
    | cons y ys =>
      rw [List.getLast?_cons_cons, ← hq]
      exact ih l2 h

theorem concat_rows_getLast (rows : List String) (hne : rows ≠ []) :
    (concatStrs (rows.map fun r => r ++ "\n")).data.getLast? = some '\n' := by
  induction rows with
  | nil => exact absurd rfl hne
  | cons x t ih =>
    show ((x ++ "\n") ++ concatStrs (t.map fun r => r ++ "\n")).data.getLast? = some '\n'
    cases t with
    | nil =>
      show ((x ++ "\n") ++ "").data.getLast? = some '\n'
      rw [String.data_append, String.data_append]
      simp only [List.append_nil]
      rw [getLast?_append_of_ne_nil _ _ (by simp [String.data])]
      rfl
    | cons y tt =>
      have hsub := ih (by simp)
      rw [String.data_append]
      rw [getLast?_append_of_ne_nil _ _ (fun hnil => by
        rw [hnil] at hsub
        exact Option.noConfusion hsub)]
      exact hsub

theorem takeWhile_append_head (p : Char → Bool) (l1 : List Char) (c : Char)
    (l2 : List Char) (h1 : ∀ d ∈ l1, p d = true) (hc : p c = false) :
    (l1 ++ c :: l2).takeWhile p = l1 := by
  induction l1 with
  | nil => simp [List.takeWhile_cons, hc]
  | cons a t ih =>
    rw [List.cons_append, List.takeWhile_cons, h1 a (by simp)]
    simp only [if_true]
    rw [ih (fun d hd => h1 d (List.mem_cons_of_mem a hd))]

theorem firstLine_of_header (header rest : String) (h : nlCount header = 0) :
    firstLine (header ++ "\n" ++ rest) = header := by
  unfold firstLine
  have hnotin : ¬ '\n' ∈ header.data := by
    unfold nlCount at h
    exact List.count_eq_zero.mp h
  have hdata : (header ++ "\n" ++ rest).data = header.data ++ '\n' :: rest.data := by
    rw [String.data_append, String.data_append]
    simp [String.data]
  rw [hdata, takeWhile_append_head _ _ _ _ ?all (by simp)]
  case all =>
    intro d hd
    simp only [ne_eq, decide_eq_true_eq]
    intro e
    exact hnotin (e ▸ hd)

end LeadAuto

namespace LeadAuto

theorem jsJoin_cons_cons_data (sep a b : String) (t : List String) :
    (jsJoin sep (a :: b :: t)).data = a.data ++ sep.data ++ (jsJoin sep (b :: t)).data := by
  show (a ++ sep ++ jsJoin sep (b :: t)).data = _
  rw [String.data_append, String.data_append]

theorem jsJoin_comma_ne_nil (a b : String) (t : List String) :
    (jsJoin "," (a :: b :: t)).data ≠ [] := by
  rw [jsJoin_cons_cons_data]
  simp [String.data]

theorem dpRow_ne_nil (l : CleanLeadDP) : (dpRow l).data ≠ [] := by
  unfold dpRow dpCells
  exact jsJoin_comma_ne_nil _ _ _

theorem nlCount_jsJoin_nl (parts : List String) (h : ∀ p ∈ parts, nlCount p = 0) :
    nlCount (jsJoin "\n" parts) = parts.length - 1 := by
  induction parts with
  | nil => rfl
  | cons x t ih =>
    cases t with
    | nil => simpa using h x (by simp)
    | cons y tt =>
      show nlCount (x ++ "\n" ++ jsJoin "\n" (y :: tt)) = (x :: y :: tt).length - 1
      rw [nlCount_append, nlCount_append, h x (by simp),
        ih (fun p hp => h p (List.mem_cons_of_mem x hp)),
        show nlCount "\n" = 1 from rfl]
      simp
      omega

theorem jsJoin_nl_getLast (parts : List String) (hne : parts ≠ [])
    (h : ∀ p ∈ parts, p.data ≠ []) :
    ∃ q ∈ parts, (jsJoin "\n" parts).data.getLast? = q.data.getLast? := by
  induction parts with
  | nil => exact absurd rfl hne
  | cons x t ih =>
    cases t with
    | nil => exact ⟨x, by simp, rfl⟩
    | cons y tt =>
      obtain ⟨q, hq, hlast⟩ := ih (by simp) (fun p hp => h p (List.mem_cons_of_mem x hp))
      refine ⟨q, List.mem_cons_of_mem x hq, ?_⟩
      show ((x ++ "\n") ++ jsJoin "\n" (y :: tt)).data.getLast? = _
      rw [String.data_append, getLast?_append_of_ne_nil _ _ ?ne, hlast]
      case ne =>
        intro hnil
        rw [hnil] at hlast
        exact (h q (List.mem_cons_of_mem x hq))
          (List.getLast?_eq_none_iff.mp hlast.symm)

theorem mem_of_nlFree {s : String} (h : nlCount s = 0) {c : Char} (hc : c ∈ s.data) :
    c ≠ '\n' := by
  unfold nlCount at h
  intro e
  exact (List.count_eq_zero.mp h) (e ▸ hc)

/-- Main line-structure lemma for `LeadLib.exportToCSV` on a non-empty batch
with newline-free cells. -/
theorem llExportToCSV_lines (leads : List CleanLeadLL) (hne : leads ≠ [])
    (hcells : ∀ l ∈ leads, ∀ cell ∈ llCells l, nlCount cell = 0) :
    lineCount (llExportToCSV leads) = leads.length + 1 ∧
    firstLine (llExportToCSV leads) = jsJoin "," llHeaders := by
  have hrows : ∀ l ∈ leads, nlCount (llRow l) = 0 := fun l hl =>
    nlCount_jsJoin_zero "," rfl (llCells l) (hcells l hl)
  have hheader : nlCount (jsJoin "," llHeaders) = 0 := by decide
  have htext : llExportToCSV leads
      = jsJoin "," llHeaders ++ "\n" ++ concatStrs (leads.map fun l => llRow l ++ "\n") := by
    unfold llExportToCSV
    rw [if_neg hne]
  have hmm : (leads.map fun l => llRow l ++ "\n")
      = (leads.map llRow).map (fun r => r ++ "\n") := by
    rw [List.map_map]
    rfl
  have hCl : (concatStrs (leads.map fun l => llRow l ++ "\n")).data.getLast? = some '\n' := by
    rw [hmm]
    exact concat_rows_getLast (leads.map llRow) (by simpa using hne)
  have hCne : (concatStrs (leads.map fun l => llRow l ++ "\n")).data ≠ [] := by
    intro hnil
    rw [hnil] at hCl
    exact Option.noConfusion hCl
  constructor
  · rw [htext]
    unfold lineCount
    have hlast : (jsJoin "," llHeaders ++ "\n"
        ++ concatStrs (leads.map fun l => llRow l ++ "\n")).data.getLast? = some '\n' := by
      rw [String.data_append, getLast?_append_of_ne_nil _ _ hCne, hCl]
    rw [if_neg (fun hnil => by rw [hnil] at hlast; exact Option.noConfusion hlast),
      if_pos hlast]
    rw [nlCount_append, nlCount_append, hheader, show nlCount "\n" = 1 from rfl, hmm,
      nlCount_concat_rows (leads.map llRow) (by
        intro r hr
        obtain ⟨l, hl, rfl⟩ := List.mem_map.mp hr
        exact hrows l hl)]
    simp
    omega
  · rw [htext]
    exact firstLine_of_header _ _ hheader

end LeadAuto

namespace LeadAuto

/-- Main line-structure lemma for `DataProcessor.exportToCSV` (apolloApi.js)
on a non-empty batch with newline-free cells. -/
theorem dpExportToCSV_lines (leads : List CleanLeadDP) (hne : leads ≠ [])
    (hcells : ∀ l ∈ leads, ∀ cell ∈ dpCells l, nlCount cell = 0) :
    lineCount (dpExportToCSV leads) = leads.length + 1 ∧
    firstLine (dpExportToCSV leads) = jsJoin "," dpHeaders := by
  have hrows : ∀ l ∈ leads, nlCount (dpRow l) = 0 := fun l hl =>
    nlCount_jsJoin_zero "," rfl (dpCells l) (hcells l hl)
  have hheader : nlCount (jsJoin "," dpHeaders) = 0 := by decide
  have hparts : ∀ p ∈ jsJoin "," dpHeaders :: leads.map dpRow, nlCount p = 0 := by
    intro p hp
    rcases List.mem_cons.mp hp with rfl | hp
    · exact hheader
    · obtain ⟨l, hl, rfl⟩ := List.mem_map.mp hp
      exact hrows l hl
  have hpne : ∀ p ∈ jsJoin "," dpHeaders :: leads.map dpRow, p.data ≠ [] := by
    intro p hp
    rcases List.mem_cons.mp hp with rfl | hp
    · exact jsJoin_comma_ne_nil _ _ _
    · obtain ⟨l, hl, rfl⟩ := List.mem_map.mp hp
      exact dpRow_ne_nil l
  have htext : dpExportToCSV leads
      = jsJoin "\n" (jsJoin "," dpHeaders :: leads.map dpRow) := by
    unfold dpExportToCSV
    rw [if_neg hne]
  constructor
  · rw [htext]
    unfold lineCount
    obtain ⟨q, hq, hlast⟩ :=
      jsJoin_nl_getLast (jsJoin "," dpHeaders :: leads.map dpRow) (by simp) hpne
    have hqsome : ∃ c, q.data.getLast? = some c ∧ c ≠ '\n' := by
      cases hqd : q.data.getLast? with
      | none => exact absurd (List.getLast?_eq_none_iff.mp hqd) (hpne q hq)
      | some c =>
        exact ⟨c, rfl, mem_of_nlFree (hparts q hq) (List.mem_of_mem_getLast? hqd)⟩
    obtain ⟨c, hc, hcne⟩ := hqsome
    have hjl : (jsJoin "\n" (jsJoin "," dpHeaders :: leads.map dpRow)).data.getLast?
        = some c := hlast.trans hc
    rw [if_neg (fun hnil => by
        rw [hnil] at hjl
        exact Option.noConfusion hjl),
      if_neg (fun he => hcne (Option.some.inj (hjl.symm.trans he))),
      nlCount_jsJoin_nl _ hparts]
    simp
  · cases leads with
    | nil => exact absurd rfl hne
    | cons l0 lt =>
      rw [htext]
      show firstLine (jsJoin "," dpHeaders ++ "\n"
        ++ jsJoin "\n" (dpRow l0 :: lt.map dpRow)) = jsJoin "," dpHeaders
      exact firstLine_of_header _ _ hheader

end LeadAuto

namespace LeadAuto

/-! ## Lemmas about the statistics folds -/

theorem llStatsFold (leads : List CleanLeadLL) : ∀ s : LLStats,
    (leads.foldl llStatsStep s).total = s.total ∧
    (leads.foldl llStatsStep s).contacted + (leads.foldl llStatsStep s).notContacted
      = s.contacted + s.notContacted + leads.length := by
  induction leads with
  | nil => intro s; exact ⟨rfl, by simp⟩
  | cons x t ih =>
    intro s
    rw [List.foldl_cons]
    obtain ⟨h1, h2⟩ := ih (llStatsStep s x)
    refine ⟨by rw [h1]; rfl, ?_⟩
    rw [h2]
    unfold llStatsStep
    by_cases hc : x.contacted <;> simp [hc] <;> omega

theorem dpStatsFold (leads : List CleanLeadDP) : ∀ s : DPStats,
    (leads.foldl dpStatsStep s).total = s.total ∧
    (leads.foldl dpStatsStep s).contacted + (leads.foldl dpStatsStep s).notContacted
      = s.contacted + s.notContacted + leads.length := by
  induction leads with
  | nil => intro s; exact ⟨rfl, by simp⟩
  | cons x t ih =>
    intro s
    rw [List.foldl_cons]
    obtain ⟨h1, h2⟩ := ih (dpStatsStep s x)
    refine ⟨by rw [h1]; rfl, ?_⟩
    rw [h2]
    unfold dpStatsStep
    by_cases hc : x.contacted <;> simp [hc] <;> omega

/-! ## Lemmas about the fetch path -/

theorem fetchLeads_non200 (env : Env) (apiKey : String)
    (cache : String → Option (List ApiLead)) (net : Nat → HttpResp) (filters : Filters)
    (hc : cache (generateCacheKey filters) = none) (h200 : (net 0).code ≠ 200) :
    fetchLeads env apiKey cache net filters
      = (.error "Failed to fetch leads from Apollo.io", 1) := by
  unfold fetchLeads
  rw [hc]
  show fetchLeadsCore env apiKey net filters = _
  unfold fetchLeadsCore makeApiCall
  rw [if_pos h200]

theorem fetchLeadsCore_calls_le_one (env : Env) (apiKey : String)
    (net : Nat → HttpResp) (filters : Filters) :
    (fetchLeadsCore env apiKey net filters).2 ≤ 1 := by
  unfold fetchLeadsCore makeApiCall
  by_cases h2 : (net 0).code ≠ 200
  · rw [if_pos h2]
  · rw [if_neg h2]
    split
    · rename_i heq
      exact absurd heq (by simp)
    · rename_i heq
      cases heq
      split <;> simp

theorem fetchLeads_calls_le_one (env : Env) (apiKey : String)
    (cache : String → Option (List ApiLead)) (net : Nat → HttpResp) (filters : Filters) :
    (fetchLeads env apiKey cache net filters).2 ≤ 1 := by
  unfold fetchLeads
  split
  · split
    · simp
    · exact fetchLeadsCore_calls_le_one env apiKey net filters
  · exact fetchLeadsCore_calls_le_one env apiKey net filters

end LeadAuto

namespace LeadAuto

/-! ## Base64 encoding is injective (via the decoder round-trip) -/

theorem b64Index_b64Char {n : Nat} (h : n < 64) : b64Index (b64Char n) = some n := by
  have hfin : ∀ i : Fin 64, b64Index (b64Char i.val) = some i.val := by decide
  exact hfin ⟨n, h⟩

theorem b64Char_ne_eq (n : Nat) : b64Char n ≠ '=' := by
  by_cases h : n < 64
  · have hfin : ∀ i : Fin 64, b64Char i.val ≠ '=' := by decide
    exact hfin ⟨n, h⟩
  · unfold b64Char
    rw [List.getD_eq_default]
    · decide
    · rw [show b64Alphabet.length = 64 from rfl]
      omega

theorem b64_roundtrip : ∀ (l : List Nat), (∀ b ∈ l, b < 256) →
    b64DecodeL (b64EncodeL l) = some l := by
  intro l
  induction l using b64EncodeL.induct with
  | case1 => intro hb; rfl
  | case2 a =>
    intro hb
    have ha : a < 256 := hb a (by simp)
    unfold b64EncodeL b64DecodeL
    rw [if_pos ⟨rfl, rfl, rfl⟩]
    rw [b64Index_b64Char (by omega), b64Index_b64Char (by omega)]
    simp only [Option.bind_eq_bind, Option.some_bind]
    congr 1
    congr 1
    omega
  | case3 a b =>
    intro hb
    have ha : a < 256 := hb a (by simp)
    have hb2 : b < 256 := hb b (by simp)
    unfold b64EncodeL b64DecodeL
    rw [if_neg (fun hand => b64Char_ne_eq ((b % 16) * 4) hand.1),
      if_pos ⟨rfl, rfl⟩]
    rw [b64Index_b64Char (by omega), b64Index_b64Char (by omega),
      b64Index_b64Char (by omega)]
    simp only [Option.bind_eq_bind, Option.some_bind]
    congr 1
    congr 1
    · omega
    · congr 1
      omega
  | case4 a b c rest ih =>
    intro hb
    have ha : a < 256 := hb a (by simp)
    have hb2 : b < 256 := hb b (by simp)
    have hc : c < 256 := hb c (by simp)
    have hrest := ih (fun x hx => hb x (by simp [hx]))
    unfold b64EncodeL b64DecodeL
    rw [if_neg (fun hand => b64Char_ne_eq ((b % 16) * 4 + c / 64) hand.1),
      if_neg (fun hand => b64Char_ne_eq (c % 64) hand.1)]
    rw [b64Index_b64Char (show a / 4 < 64 by omega),
      b64Index_b64Char (show (a % 4) * 16 + b / 16 < 64 by omega),
      b64Index_b64Char (show (b % 16) * 4 + c / 64 < 64 by omega),
      b64Index_b64Char (show c % 64 < 64 by omega), hrest]
    simp only [Option.bind_eq_bind, Option.some_bind]
    have e1 : (a / 4) * 4 + ((a % 4) * 16 + b / 16) / 16 = a := by omega
    have e2 : (((a % 4) * 16 + b / 16) % 16) * 16 + ((b % 16) * 4 + c / 64) / 4 = b := by
      omega
    have e3 : (((b % 16) * 4 + c / 64) % 4) * 64 + c % 64 = c := by omega
    rw [e1, e2, e3]
    simp

end LeadAuto

namespace LeadAuto

theorem b64EncodeL_inj {l1 l2 : List Nat} (h1 : ∀ b ∈ l1, b < 256)
    (h2 : ∀ b ∈ l2, b < 256) (h : b64EncodeL l1 = b64EncodeL l2) : l1 = l2 := by
  have r1 := b64_roundtrip l1 h1
  have r2 := b64_roundtrip l2 h2
  rw [h, r2] at r1
  exact (Option.some.inj r1).symm

theorem utf8Char_ascii {c : Char} (h : c.toNat < 128) : utf8Char c = [c.toNat] := by
  unfold utf8Char
  rw [if_pos h]

theorem utf8_fold_ascii (l : List Char) (h : ∀ c ∈ l, c.toNat < 128) :
    List.foldr (fun c acc => utf8Char c ++ acc) [] l = l.map Char.toNat := by
  induction l with
  | nil => rfl
  | cons c t ih =>
    rw [List.foldr_cons, List.map_cons, utf8Char_ascii (h c (by simp)),
      ih (fun d hd => h d (List.mem_cons_of_mem c hd))]
    rfl

theorem utf8Bytes_of_ascii (s : String) (h : asciiStr s = true) :
    utf8Bytes s = s.data.map Char.toNat := by
  unfold asciiStr at h
  rw [List.all_eq_true] at h
  unfold utf8Bytes
  exact utf8_fold_ascii s.data (fun c hc => by simpa using h c hc)

theorem utf8Bytes_ascii_bound (s : String) (h : asciiStr s = true) :
    ∀ b ∈ utf8Bytes s, b < 256 := by
  rw [utf8Bytes_of_ascii s h]
  unfold asciiStr at h
  rw [List.all_eq_true] at h
  intro b hb
  obtain ⟨c, hc, rfl⟩ := List.mem_map.mp hb
  have := h c hc
  simp only [decide_eq_true_eq] at this
  omega

theorem string_data_inj {s t : String} (h : s.data = t.data) : s = t := by
  cases s
  cases t
  exact congrArg String.mk h

theorem base64Encode_inj_ascii {s t : String} (hs : asciiStr s = true)
    (ht : asciiStr t = true) (h : base64Encode s = base64Encode t) : s = t := by
  unfold base64Encode at h
  have hlists := congrArg String.data h
  simp only [String.data] at hlists
  have hbytes := b64EncodeL_inj (utf8Bytes_ascii_bound s hs) (utf8Bytes_ascii_bound t ht)
    hlists
  rw [utf8Bytes_of_ascii s hs, utf8Bytes_of_ascii t ht] at hbytes
  apply string_data_inj
  have hinj : Function.Injective Char.toNat := fun a b hab => char_toNat_inj hab
  exact (List.map_injective_iff.mpr hinj) hbytes

theorem generateCacheKey_eq_iff (f g : Filters) (hf : asciiFilters f = true)
    (hg : asciiFilters g = true) :
    (generateCacheKey f = generateCacheKey g ↔ jsonStringify f = jsonStringify g) := by
  constructor
  · intro h
    unfold generateCacheKey at h
    have hdata := congrArg String.data h
    rw [String.data_append, String.data_append] at hdata
    have henc : base64Encode (jsonStringify f) = base64Encode (jsonStringify g) :=
      string_data_inj (List.append_cancel_left hdata)
    exact base64Encode_inj_ascii hf hg henc
  · intro h
    unfold generateCacheKey
    rw [h]

end LeadAuto

namespace LeadAuto

theorem dpCleanIndividual_some_ok (env : Env) (lead : RawLeadDP) :
    ∃ c, dpCleanIndividual env (some lead) = .ok c := by
  obtain ⟨name, h1⟩ := isOk_exists (dpCleanName_isOk lead.name)
  obtain ⟨title, h2⟩ := isOk_exists (dpCleanTitle_isOk lead.title)
  obtain ⟨company, h3⟩ := isOk_exists (dpCleanCompanyName_isOk lead.company)
  obtain ⟨sector, h4⟩ := isOk_exists (dpCleanSector_isOk lead.sector)
  obtain ⟨email, h5⟩ := isOk_exists (dpCleanEmail_isOk lead.email)
  obtain ⟨linkedinUrl, h6⟩ := isOk_exists (dpCleanUrl_isOk lead.linkedinUrl)
  obtain ⟨phone, h7⟩ := isOk_exists (dpCleanPhone_isOk lead.phone)
  obtain ⟨location, h8⟩ := isOk_exists (dpCleanLocation_isOk lead.location)
  obtain ⟨website, h9⟩ := isOk_exists (dpCleanUrl_isOk lead.website)
  refine ⟨⟨lead.id.jsOr (.str env.uuid), name, title, company, sector,
    dpCleanNumber lead.employees, dpCleanNumber lead.capital,
    dpCleanYear env.currentYear lead.yearFounded, email, linkedinUrl, phone,
    location, website, env.nowIso, false⟩, ?_⟩
  unfold dpCleanIndividual
  simp only [h1, h2, h3, h4, h5, h6, h7, h8, h9, Bind.bind, Except.bind]

theorem dpCleanAll_error_of_none (env : Env) :
    ∀ batch : List (Option RawLeadDP), none ∈ batch →
      ∃ e, dpCleanAll env batch = .error e := by
  intro batch
  induction batch with
  | nil => intro h; exact absurd h (by simp)
  | cons x rest ih =>
    intro h
    cases x with
    | none => exact ⟨"TypeError", by unfold dpCleanAll; rfl⟩
    | some lead =>
      have hrest : none ∈ rest := by simpa using h
      obtain ⟨e, he⟩ := ih hrest
      obtain ⟨c, hc⟩ := dpCleanIndividual_some_ok env lead
      refine ⟨e, ?_⟩
      unfold dpCleanAll
      simp only [hc, he, Bind.bind, Except.bind]

theorem dpCleanLeads_error_of_none (env : Env) (batch : List (Option RawLeadDP))
    (h : none ∈ batch) : ∃ e, dpCleanLeads env batch = .error e := by
  obtain ⟨e, he⟩ := dpCleanAll_error_of_none env batch h
  refine ⟨e, ?_⟩
  unfold dpCleanLeads
  simp only [he, Bind.bind, Except.bind]

end LeadAuto

namespace LeadAuto

/-! ## Claim theorems -/

/-- C1: The claim that within one cleaned batch exactly the first valid
record of each lower-cased e-mail survives holds as stated only for the
`DataProcessor` (apolloApi.js) pipeline; the amended statement proved here
is: (1) the DataProcessor `cleanLeads` output is exactly the
first-occurrence deduplication by e-mail of its validated records, and no
two of its output records share a lower-cased e-mail; (2) in the LeadLib
pipeline no two output records share a lower-cased e-mail; (3) in the
LeadLib pipeline the first valid record with a given lower-cased e-mail is
the unique survivor of its e-mail class provided no earlier record in the
batch shares its lower-cased e-mail or lower-cased name — name-based
deduplication may otherwise suppress it in favour of a later record with
the same e-mail (see the counterexample). -/
theorem C1_email_dedup_amended :
    (∀ (env : Env) (batch : List (Option RawLeadDP)) (cleaned : List CleanLeadDP),
      dpCleanAll env batch = .ok cleaned →
        dpCleanLeads env batch
          = .ok (dedupByFirst (fun c => c.email) (cleaned.filter dpValidateLead) []) ∧
        (dedupByFirst (fun c => c.email) (cleaned.filter dpValidateLead) []).Pairwise
          (fun a b => jsStrToLower a.email ≠ jsStrToLower b.email)) ∧
    (∀ (env : Env) (batch : List (Option RawLeadLL)),
      (llCleanLeads env batch).Pairwise
        (fun a b => jsStrToLower a.email ≠ jsStrToLower b.email)) ∧
    (∀ (env : Env) (l1 : List (Option RawLeadLL)) (r : RawLeadLL)
      (l2 : List (Option RawLeadLL)) (t : CleanLeadLL × String × String),
      llStep env (some r) [] [] = .ok (some t) →
      (∀ x ∈ l1, ∀ s, x = some s →
        jsStrToLower s.email.coerceStr ≠ t.2.1 ∧ jsStrToLower s.name.coerceStr ≠ t.2.2) →
      t.1 ∈ llCleanLeads env (l1 ++ some r :: l2) ∧
      ∀ d ∈ llCleanLeads env (l1 ++ some r :: l2),
        jsStrToLower d.email = jsStrToLower t.1.email → d = t.1) := by
  refine ⟨?dp, ?ll, ?first⟩
  case dp =>
    intro env batch cleaned hall
    refine ⟨dpCleanLeads_eq hall, ?_⟩
    have hlow : ∀ c ∈ cleaned.filter dpValidateLead, jsStrToLower c.email = c.email :=
      fun c hc => dpCleanAll_mem hall c (List.mem_filter.mp hc).1
    have hp := (dedupByFirst_pairwise (fun c : CleanLeadDP => c.email)
      (cleaned.filter dpValidateLead) []).2
    refine List.Pairwise.imp_of_mem ?_ hp
    intro a b ha hb hne
    rw [hlow a (dedupByFirst_mem ha), hlow b (dedupByFirst_mem hb)]
    exact hne
  case ll =>
    intro env batch
    exact llCleanLeads_email_pairwise env batch
  case first =>
    intro env l1 r l2 t hstep hfresh
    have hmem := llGoT_mem_first env l1 r l2 t [] [] hstep hfresh
    have htm : t.1 ∈ llCleanLeads env (l1 ++ some r :: l2) :=
      List.mem_map_of_mem (fun u => u.1) hmem
    refine ⟨htm, ?_⟩
    intro d hd heq
    exact pairwise_eq_of_key (llCleanLeads_email_pairwise env (l1 ++ some r :: l2))
      hd htm heq

/-- Witness for C1 at concrete inputs: the DataProcessor part on a one-record
batch, and the LeadLib first-record part on the `wx` fixture. -/
theorem C1_email_dedup_amended_witness :
    dpCleanLeads env0 [some (mkRawDP "john smith" "ceo" "JOHN@X.com")]
      = .ok (dedupByFirst (fun c => c.email) ([cpW].filter dpValidateLead) []) ∧
    tW.1 ∈ llCleanLeads env0 [some (mkRawLL "wx" "w@x.co")] := by
  constructor
  · exact (C1_email_dedup_amended.1 env0
      [some (mkRawDP "john smith" "ceo" "JOHN@X.com")] [cpW] (by decide)).1
  · exact (C1_email_dedup_amended.2.2 env0 [] (mkRawLL "wx" "w@x.co") [] tW
      (by decide) (fun x hx => absurd hx (by simp))).1

/-- Counterexample to C1 as stated: in the LeadLib pipeline, `r1` (name
`ab`, e-mail `e1@x.co`) is individually valid and is the first record of
its e-mail class, yet the name-deduplication against `r0` drops it, and the
later record `r2` with the same e-mail survives instead: the surviving
record of the `e1@x.co` class has name `Cd`, not `Ab`. -/
theorem C1_first_record_refuted :
    llIsValidEmail (mkRawLL "ab" "e1@x.co").email = true ∧
    llIsValidName (mkRawLL "ab" "e1@x.co").name = true ∧
    jsStrToLower (mkRawLL "ab" "e1@x.co").email.coerceStr
      = jsStrToLower (mkRawLL "cd" "e1@x.co").email.coerceStr ∧
    capWords (mkRawLL "ab" "e1@x.co").name.coerceStr = "Ab" ∧
    ((llCleanLeads env0
        [some (mkRawLL "ab" "e0@x.co"), some (mkRawLL "ab" "e1@x.co"),
         some (mkRawLL "cd" "e1@x.co")]).map (fun c => (c.name, c.email)))
      = [("Ab", "e0@x.co"), ("Cd", "e1@x.co")] := by
  refine ⟨by decide, by decide, by decide, by decide, by decide⟩

/-- C2: the claim that a record whose title normalizes to CTO (or any title
outside the accepted set) is excluded from the cleaned output holds for the
DataProcessor (apolloApi.js) pipeline, whose validator accepts only
CEO/Owner/Founder/President/Co-Founder; the LeadLib pipeline performs no
title validation at all and retains such records (see the counterexample).
Amended statement: every record in a DataProcessor `cleanLeads` output has
its title in the accepted list, and `CTO` is not in that list. -/
theorem C2_title_allowlist_amended :
    (∀ (env : Env) (batch : List (Option RawLeadDP)) (out : List CleanLeadDP),
      dpCleanLeads env batch = .ok out →
      ∀ r ∈ out, dpValidTitles.contains r.title = true) ∧
    dpValidTitles.contains "CTO" = false := by
  constructor
  · intro env batch out h r hr
    unfold dpCleanLeads at h
    obtain ⟨cleaned, hall, h⟩ := bind_ok_elim h
    cases h
    rw [dpDedup_eq_dedupByFirst] at hr
    have hval : dpValidateLead r = true :=
      (List.mem_filter.mp (dedupByFirst_mem hr)).2
    unfold dpValidateLead at hval
    simp only [Bool.and_eq_true] at hval
    exact hval.2
  · decide

/-- Witness for C2: a concrete CEO record passes the pipeline and its title
is in the accepted list. -/
theorem C2_title_allowlist_amended_witness :
    dpValidTitles.contains cpW.title = true := by
  exact C2_title_allowlist_amended.1 env0
    [some (mkRawDP "john smith" "ceo" "JOHN@X.com")] [cpW] (by decide) cpW (by decide)

/-- Counterexample to C2 as stated: the LeadLib `cleanLeads` (cited by the
claim) retains a record whose title normalizes to `CTO`; its output for a
one-record batch with title `CTO` and valid name/e-mail is that record,
with title `CTO`. -/
theorem C2_cto_not_excluded :
    llIsValidEmail ctoRawLL.email = true ∧
    llIsValidName ctoRawLL.name = true ∧
    (llCleanLeads env0 [some ctoRawLL]).map (fun c => c.title) = ["CTO"] := by
  refine ⟨by decide, by decide, by decide⟩

/-- C3: the claim that a record whose cleaning throws is skipped while the
batch continues, and that `cleanLeads` never fails as a whole, holds for
the LeadLib pipeline (its `forEach` body is wrapped in try/catch) but not
for the DataProcessor (apolloApi.js) pipeline, whose bare `.map` lets the
first exception abort the whole batch (see the counterexample).  Amended
statement: (1) removing a record whose step throws on fresh state does not
change the LeadLib output at all; (2) a DataProcessor batch containing a
null record always fails as a whole. -/
theorem C3_per_record_errors_amended :
    (∀ (env : Env) (bad : Option RawLeadLL) (e : JsErr),
      llStep env bad [] [] = .error e →
      ∀ (l1 l2 : List (Option RawLeadLL)),
        llCleanLeads env (l1 ++ bad :: l2) = llCleanLeads env (l1 ++ l2)) ∧
    (∀ (env : Env) (batch : List (Option RawLeadDP)),
      none ∈ batch → ∃ e, dpCleanLeads env batch = .error e) := by
  constructor
  · intro env bad e hbad l1 l2
    unfold llCleanLeads
    rw [llGoT_skip_error env bad ⟨e, hbad⟩ l1 l2 [] []]
  · intro env batch h
    exact dpCleanLeads_error_of_none env batch h

/-- Witness for C3 at concrete inputs: a null entry in the middle of a
LeadLib batch is skipped, and a DataProcessor batch with a null entry
fails. -/
theorem C3_per_record_errors_amended_witness :
    llCleanLeads env0 [some (mkRawLL "wx" "w@x.co"), none]
      = llCleanLeads env0 [some (mkRawLL "wx" "w@x.co")] ∧
    (dpCleanLeads env0 [some (mkRawDP "a" "ceo" "a@b.co"), none]).isOk = false := by
  constructor
  · exact C3_per_record_errors_amended.1 env0 none "TypeError" (by decide)
      [some (mkRawLL "wx" "w@x.co")] []
  · obtain ⟨e, he⟩ := C3_per_record_errors_amended.2 env0
      [some (mkRawDP "a" "ceo" "a@b.co"), none] (by decide)
    rw [he]
    rfl

/-- Counterexample to C3 as stated: cleaning the second (null) record of
this DataProcessor batch throws, and instead of skipping it the whole
`cleanLeads` call fails — it does not return an array. -/
theorem C3_dp_batch_aborts :
    dpCleanLeads env0 [some (mkRawDP "a" "ceo" "a@b.co"), none]
      = .error "TypeError" := by
  decide

end LeadAuto

namespace LeadAuto

/-- C4: the claim that a 429 response is retried up to 3 attempts with
backoff before a fatal error is propagated is false: no retry logic exists
in the source.  `_makeApiCall` performs exactly one request and throws on
any non-200 status — 429 included — and `fetchLeads` converts that throw
into the fatal `Failed to fetch leads from Apollo.io` error at once.
Amended statement: on a cache miss with any non-200 first response,
`fetchLeads` returns the fatal error having made exactly one request, and
no call of `fetchLeads` ever makes more than one request. -/
theorem C4_no_retry_amended :
    (∀ (env : Env) (apiKey : String) (cache : String → Option (List ApiLead))
      (net : Nat → HttpResp) (filters : Filters),
      cache (generateCacheKey filters) = none →
      (net 0).code ≠ 200 →
      fetchLeads env apiKey cache net filters
        = (.error "Failed to fetch leads from Apollo.io", 1)) ∧
    (∀ (env : Env) (apiKey : String) (cache : String → Option (List ApiLead))
      (net : Nat → HttpResp) (filters : Filters),
      (fetchLeads env apiKey cache net filters).2 ≤ 1) := by
  exact ⟨fetchLeads_non200, fetchLeads_calls_le_one⟩

/-- Witness for C4 at a concrete 429-answering network oracle. -/
theorem C4_no_retry_amended_witness :
    fetchLeads env0 "k" (fun _ => none) net429 fOrder1
      = (.error "Failed to fetch leads from Apollo.io", 1) :=
  C4_no_retry_amended.1 env0 "k" (fun _ => none) net429 fOrder1 rfl (by decide)

/-- Counterexample to C4 as stated: against an oracle that answers 429 once
and then 200, the source `_makeApiCall` fails immediately after one
request, whereas the retry policy described by the claim (modelled by
`specMakeApiCallRetry`) would succeed on the second attempt. -/
theorem C4_429_not_retried :
    makeApiCall net429 0 = (.error "API call failed with status: 429", 1) ∧
    specMakeApiCallRetry net429 = (.ok ⟨some []⟩, 2) ∧
    fetchLeads env0 "k" (fun _ => none) net429 fOrder1
      = (.error "Failed to fetch leads from Apollo.io", 1) := by
  refine ⟨by decide, by decide, by decide⟩

/-- C5: the claim that semantically identical filter sets produce the same
cache key regardless of key ordering is false: `_generateCacheKey` base64-
encodes `JSON.stringify(filters)`, which serializes keys in insertion
order.  Amended statement: for ASCII filter objects the cache key is equal
exactly when the JSON serialization (key order included) is equal — so
reordering keys changes the key (see the counterexample). -/
theorem C5_cache_key_amended :
    ∀ f g : Filters, asciiFilters f = true → asciiFilters g = true →
      (generateCacheKey f = generateCacheKey g ↔ jsonStringify f = jsonStringify g) :=
  generateCacheKey_eq_iff

/-- Witness for C5 at two concrete filter objects. -/
theorem C5_cache_key_amended_witness :
    generateCacheKey fOrder1 = generateCacheKey fOrder2 ↔
      jsonStringify fOrder1 = jsonStringify fOrder2 :=
  C5_cache_key_amended fOrder1 fOrder2 (by decide) (by decide)

/-- Counterexample to C5 as stated: the same two key/value pairs supplied in
the opposite order (a permutation) produce different cache keys. -/
theorem C5_key_order_dependent :
    fOrder1.Perm fOrder2 ∧ generateCacheKey fOrder1 ≠ generateCacheKey fOrder2 := by
  constructor
  · exact List.Perm.swap _ _ _
  · decide

/-- C6: the company-size bucketing used by the statistics aggregator
(`getLeadStatistics` in dataProcessor.js, and identically inside
`SheetManager.getStats`) is a total, non-overlapping partition of the
non-negative integers: 0 maps to Unknown, (0,10] to 1-10, (10,50] to
11-50, (50,200] to 51-200, (200,500] to 201-500, and everything above 500
to 500+.  Confirmed: the source bucketing coincides with the partition
`specBucket` stated by the claim, and each label characterizes exactly its
stated range. -/
theorem C6_company_size_partition :
    ∀ n : Nat, llSizeCategory n = specBucket n ∧
      (llSizeCategory n = "Unknown" ↔ n = 0) ∧
      (llSizeCategory n = "1-10" ↔ 1 ≤ n ∧ n ≤ 10) ∧
      (llSizeCategory n = "11-50" ↔ 11 ≤ n ∧ n ≤ 50) ∧
      (llSizeCategory n = "51-200" ↔ 51 ≤ n ∧ n ≤ 200) ∧
      (llSizeCategory n = "201-500" ↔ 201 ≤ n ∧ n ≤ 500) ∧
      (llSizeCategory n = "500+" ↔ 501 ≤ n) := by
  intro n
  unfold llSizeCategory specBucket
  split_ifs <;>
    refine ⟨?_, ?_, ?_, ?_, ?_, ?_, ?_⟩ <;>
    first
      | rfl
      | exact iff_of_true rfl (by omega)
      | exact iff_of_false (by decide) (by omega)
      | (exfalso; omega)

/-- C7: CSV serialization of a non-empty batch yields the fixed header as
first line and N+1 lines for N records, and an empty batch yields a
sentinel, in both variants — PROVIDED no cell of any record contains a
newline.  The proviso is necessary: the LeadLib validator accepts names
with embedded newlines, which survive into the CSV and break the line
count (see the counterexample).  Amended statement: for non-empty batches
whose cells are newline-free, both exporters produce exactly N+1 lines
with the respective header as first line; the empty batch yields the
sentinel `No leads to export` (LeadLib) or the empty string
(DataProcessor), not a header-only file. -/
theorem C7_csv_lines_amended :
    (∀ leads : List CleanLeadLL, leads ≠ [] →
      (∀ l ∈ leads, ∀ cell ∈ llCells l, nlCount cell = 0) →
      lineCount (llExportToCSV leads) = leads.length + 1 ∧
      firstLine (llExportToCSV leads) = jsJoin "," llHeaders) ∧
    (∀ leads : List CleanLeadDP, leads ≠ [] →
      (∀ l ∈ leads, ∀ cell ∈ dpCells l, nlCount cell = 0) →
      lineCount (dpExportToCSV leads) = leads.length + 1 ∧
      firstLine (dpExportToCSV leads) = jsJoin "," dpHeaders) ∧
    llExportToCSV [] = "No leads to export" ∧
    dpExportToCSV [] = "" := by
  exact ⟨llExportToCSV_lines, dpExportToCSV_lines, rfl, rfl⟩

/-- Witness for C7 at one-record batches built from the fixtures. -/
theorem C7_csv_lines_amended_witness :
    lineCount (llExportToCSV [tW.1]) = 2 ∧
    firstLine (llExportToCSV [tW.1]) = jsJoin "," llHeaders ∧
    lineCount (dpExportToCSV [cpW]) = 2 ∧
    firstLine (dpExportToCSV [cpW]) = jsJoin "," dpHeaders := by
  obtain ⟨h1, h2⟩ := C7_csv_lines_amended.1 [tW.1] (by decide) (by decide)
  obtain ⟨h3, h4⟩ := C7_csv_lines_amended.2.1 [cpW] (by decide) (by decide)
  exact ⟨h1, h2, h3, h4⟩

/-- Counterexample to C7 as stated: a raw lead whose name contains a
newline passes LeadLib validation (the name regex accepts whitespace), the
newline survives into the cleaned record's quoted name cell, and the CSV
for this batch of one record has 3 lines instead of 2. -/
theorem C7_newline_breaks_line_count :
    (llCleanLeads env0 [some (mkRawLL "a\nb" "a@b.co")]).length = 1 ∧
    lineCount (llExportToCSV (llCleanLeads env0 [some (mkRawLL "a\nb" "a@b.co")])) = 3 := by
  refine ⟨by decide, by decide⟩

end LeadAuto

namespace LeadAuto

/-- C8: the claim that every field normalizer accepts any raw value —
absent, numeric, malformed — without throwing and with type-appropriate
defaults holds for the DataProcessor (apolloApi.js) normalizers, whose
guards check `typeof`; it fails for the LeadLib normalizers, which guard
only falsy values and throw a TypeError on truthy non-strings (see the
counterexample; inside `cleanLeads` that throw is contained by the
per-record try/catch).  Amended statement: every DataProcessor normalizer
returns a value on every input, with the source's defaults on null,
numeric and boolean inputs. -/
theorem C8_normalizers_amended :
    (∀ v : JSValue,
      (dpCleanName v).isOk = true ∧ (dpCleanTitle v).isOk = true ∧
      (dpCleanCompanyName v).isOk = true ∧ (dpCleanSector v).isOk = true ∧
      (dpCleanEmail v).isOk = true ∧ (dpCleanPhone v).isOk = true ∧
      (dpCleanLocation v).isOk = true ∧ (dpCleanUrl v).isOk = true) ∧
    (dpCleanName .null = .ok "" ∧ dpCleanTitle .null = .ok "" ∧
      dpCleanCompanyName .null = .ok "" ∧ dpCleanSector .null = .ok "Unknown" ∧
      dpCleanEmail .null = .ok "" ∧ dpCleanPhone .null = .ok "" ∧
      dpCleanLocation .null = .ok "" ∧ dpCleanUrl .null = .ok "" ∧
      dpCleanNumber .null = 0) ∧
    (∀ n : Int,
      dpCleanName (.num n) = .ok "" ∧ dpCleanTitle (.num n) = .ok "" ∧
      dpCleanCompanyName (.num n) = .ok "" ∧ dpCleanSector (.num n) = .ok "Unknown" ∧
      dpCleanEmail (.num n) = .ok "" ∧ dpCleanPhone (.num n) = .ok "" ∧
      dpCleanLocation (.num n) = .ok "" ∧ dpCleanUrl (.num n) = .ok "") ∧
    (∀ b : Bool, dpCleanNumber (.bool b) = 0) ∧
    (∀ cy : Int, dpCleanYear cy .null = .null) := by
  refine ⟨?ok, ?null, ?num, ?bool, ?year⟩
  case ok =>
    intro v
    exact ⟨dpCleanName_isOk v, dpCleanTitle_isOk v, dpCleanCompanyName_isOk v,
      dpCleanSector_isOk v, dpCleanEmail_isOk v, dpCleanPhone_isOk v,
      dpCleanLocation_isOk v, dpCleanUrl_isOk v⟩
  case null => exact ⟨by decide, by decide, by decide, by decide, by decide,
    by decide, by decide, by decide, rfl⟩
  case num =>
    intro n
    refine ⟨?_, ?_, ?_, ?_, ?_, ?_, ?_, ?_⟩ <;>
      simp [dpCleanName, dpCleanTitle, dpCleanCompanyName, dpCleanSector,
        dpCleanEmail, dpCleanPhone, dpCleanLocation, dpCleanUrl, JSValue.isStr]
  case bool => intro b; rfl
  case year =>
    intro cy
    unfold dpCleanYear
    rw [if_pos (Or.inl (by decide))]

/-- Counterexample to C8 as stated: the LeadLib normalizers cited by the
claim throw a TypeError on a truthy numeric input instead of returning a
default. -/
theorem C8_ll_normalizers_throw :
    llCleanName (.num 42) = .error "TypeError" ∧
    llCleanTitle (.num 42) = .error "TypeError" ∧
    llCleanPhone (.num 42) = .error "TypeError" ∧
    llCleanCompany (.num 42) = .error "TypeError" := by
  refine ⟨by decide, by decide, by decide, by decide⟩

/-- C9: the claim that of two otherwise-valid records with distinct e-mails
sharing a lower-cased name only the first by input order is kept holds
only when no e-mail collision interferes: the seen-sets grow just for
accepted records, so e-mail deduplication can suppress the earliest record
of a name class and let a later one through (see the counterexample).
Amended statement: (1) no two accepted records of one LeadLib batch share
the lower-cased raw name recorded in `seenNames` (the second string of
each accepted triple); (2) the first record of a batch whose lower-cased
e-mail and name both differ from those of every earlier record is
accepted, and is the unique accepted record bearing its lower-cased name. -/
theorem C9_name_dedup_amended :
    (∀ (env : Env) (batch : List (Option RawLeadLL)),
      (llGoT env batch [] []).Pairwise (fun a b => a.2.2 ≠ b.2.2)) ∧
    (∀ (env : Env) (l1 : List (Option RawLeadLL)) (r : RawLeadLL)
      (l2 : List (Option RawLeadLL)) (t : CleanLeadLL × String × String),
      llStep env (some r) [] [] = .ok (some t) →
      (∀ x ∈ l1, ∀ s, x = some s →
        jsStrToLower s.email.coerceStr ≠ t.2.1 ∧ jsStrToLower s.name.coerceStr ≠ t.2.2) →
      t ∈ llGoT env (l1 ++ some r :: l2) [] [] ∧
      ∀ u ∈ llGoT env (l1 ++ some r :: l2) [] [], u.2.2 = t.2.2 → u = t) := by
  constructor
  · intro env batch
    exact ((llGoT_fresh_pairwise env batch [] []).2).imp (fun hab => hab.2)
  · intro env l1 r l2 t hstep hfresh
    have hmem := llGoT_mem_first env l1 r l2 t [] [] hstep hfresh
    refine ⟨hmem, ?_⟩
    intro u hu heq
    have hp : (llGoT env (l1 ++ some r :: l2) [] []).Pairwise
        (fun a b => a.2.2 ≠ b.2.2) :=
      ((llGoT_fresh_pairwise env (l1 ++ some r :: l2) [] []).2).imp (fun hab => hab.2)
    exact pairwise_eq_of_key hp hu hmem heq

/-- Witness for C9: the `wx` fixture record is accepted as the unique holder
of its lower-cased name in a one-record batch. -/
theorem C9_name_dedup_amended_witness :
    tW ∈ llGoT env0 [some (mkRawLL "wx" "w@x.co")] [] [] :=
  (C9_name_dedup_amended.2 env0 [] (mkRawLL "wx" "w@x.co") [] tW
    (by decide) (fun x hx => absurd hx (by simp))).1

/-- Counterexample to C9 as stated: records two and three share the
lower-cased name `cd` and have distinct e-mails, and both are individually
valid; yet the first of them is suppressed by e-mail deduplication against
record one, and the accepted record named `Cd` carries the THIRD record's
e-mail `g@x.co`, not the second record's `f@x.co`. -/
theorem C9_first_name_refuted :
    llIsValidEmail (mkRawLL "cd" "f@x.co").email = true ∧
    llIsValidName (mkRawLL "cd" "f@x.co").name = true ∧
    (mkRawLL "cd" "f@x.co").email ≠ (mkRawLL "cd" "g@x.co").email ∧
    jsStrToLower (mkRawLL "cd" "f@x.co").name.coerceStr
      = jsStrToLower (mkRawLL "cd" "g@x.co").name.coerceStr ∧
    ((llGoT env0 [some (mkRawLL "ab" "f@x.co"), some (mkRawLL "cd" "f@x.co"),
        some (mkRawLL "cd" "g@x.co")] [] []).map (fun t => (t.1.name, t.1.email)))
      = [("Ab", "f@x.co"), ("Cd", "g@x.co")] := by
  refine ⟨by decide, by decide, by decide, by decide, by decide⟩

/-- C10: for every input list, `getLeadStatistics` returns `total` equal to
the list length, and `contacted + notContacted = total` — every lead is
counted in exactly one of the two counters.  Confirmed for both the
LeadLib and the DataProcessor (apolloApi.js) variants. -/
theorem C10_stats_totals :
    (∀ leads : List CleanLeadLL,
      (llGetLeadStatistics leads).total = leads.length ∧
      (llGetLeadStatistics leads).contacted + (llGetLeadStatistics leads).notContacted
        = (llGetLeadStatistics leads).total) ∧
    (∀ leads : List CleanLeadDP,
      (dpGetLeadStatistics leads).total = leads.length ∧
      (dpGetLeadStatistics leads).contacted + (dpGetLeadStatistics leads).notContacted
        = (dpGetLeadStatistics leads).total) := by
  constructor
  · intro leads
    unfold llGetLeadStatistics
    by_cases h : leads = []
    · rw [if_pos h]
      subst h
      exact ⟨rfl, rfl⟩
    · rw [if_neg h]
      obtain ⟨h1, h2⟩ := llStatsFold leads ⟨leads.length, 0, 0, [], [], []⟩
      refine ⟨h1, ?_⟩
      rw [h2, h1]
      simp
  · intro leads
    unfold dpGetLeadStatistics
    by_cases h : leads = []
    · rw [if_pos h]
      subst h
      exact ⟨rfl, rfl⟩
    · rw [if_neg h]
      obtain ⟨h1, h2⟩ := dpStatsFold leads ⟨leads.length, [], [], 0, 0⟩
      refine ⟨h1, ?_⟩
      rw [h2, h1]
      simp

end LeadAuto
